import Mathlib

/-!
Verification of the lima ledger/categorizer core against its specification.

Go source is shallowly embedded as follows:
* `float64` and `decimal.Decimal` values are modelled as `ℚ`; the verified
  code paths use them only through comparisons and exact decimal arithmetic.
* Go `int`/`int64` are modelled as `ℤ`.
* `time.Time` values are modelled as an abstract clock value `Nat`; functions
  that call `time.Now()` receive the current instant as an extra argument.
* Go maps are modelled as association lists (`List (κ × ν)`); `nil` and empty
  maps/slices collapse to `[]`, which is faithful for every property proved
  here (only contents are ever observed).
* a compiled `regexp.Regexp` is modelled as its source string together with
  its (deterministic) matching function on strings; `regexp.Compile` is a
  parameter `compile : String → Option GoRegex`, so every theorem
  quantifying over `compile` holds in particular for Go's actual compiler.
* fallible Go functions returning `(T, error)` are modelled with
  `Except String T`; methods that mutate their receiver return the new value
  of the receiver.
-/

namespace Lima

/-- Amount: a decimal number together with a commodity code
(`internal/beancount/types.go`). -/
structure Amount where
  number : ℚ
  commodity : String
  deriving DecidableEq, Repr

/-- Posting: one leg of a transaction (`internal/beancount/types.go`).
`amount` is `none` for auto-balanced postings. -/
structure Posting where
  account : String
  amount : Option Amount
  cost : Option Amount
  price : Option Amount
  metadata : List (String × String)
  deriving DecidableEq, Repr

/-- Transaction record (`internal/beancount/types.go`). -/
structure Transaction where
  date : Nat
  flag : String
  payee : String
  narration : String
  tags : List String
  links : List String
  postings : List Posting
  metadata : List (String × String)
  filePosition : Int
  lineNumber : Int
  deriving DecidableEq, Repr

/-- A compiled Go regular expression: its source and its matching function.
Matching in Go is a pure function of the source, so this pair models
`*regexp.Regexp` faithfully for the code below. -/
structure GoRegex where
  source : String
  matchString : String → Bool

/-- PatternStatistics (`internal/categorizer/types.go`). -/
structure PatternStatistics where
  matchCount : Int
  acceptCount : Int
  rejectCount : Int
  lastMatched : Nat
  accuracy : ℚ
  deriving Repr

/-- Pattern (`internal/categorizer/types.go`). `regex` is `none` when the
`Regex` field holds a nil pointer. -/
structure Pattern where
  id : String
  name : String
  pattern : String
  regex : Option GoRegex
  category : String
  fields : List String
  priority : Int
  confidence : ℚ
  minAmount : Option ℚ
  maxAmount : Option ℚ
  tags : List String
  metadata : List (String × String)
  statistics : PatternStatistics
  created : Nat
  updated : Nat

/-- Helper `contains` from `internal/categorizer/types.go`: linear scan for a
string in a slice. -/
def contains (slice : List String) (item : String) : Bool :=
  slice.any (fun s => s == item)

/-- Loop body of `Pattern.matchesAmount`: starting from the running value
`m`, each posting amount is taken as `float64`; an amount greater than the
running value replaces it, and a negative amount then overwrites the running
value with its negation (`internal/categorizer/types.go`, lines 185-196). -/
def amountLoop : List Posting → ℚ → ℚ
  | [], m => m
  | posting :: rest, m =>
    match posting.amount with
    | none => amountLoop rest m
    | some a =>
      let m1 := if a.number > m then a.number else m
      let m2 := if a.number < 0 then -a.number else m1
      amountLoop rest m2

/-- Pattern.matchesAmount (`internal/categorizer/types.go`): range-checks the
single value produced by `amountLoop` (started at 0) against the optional
inclusive bounds. -/
def Pattern.matchesAmount (p : Pattern) (tx : Transaction) : Bool :=
  let maxAmount := amountLoop tx.postings 0
  if p.minAmount.any (fun mn => decide (maxAmount < mn)) then
    false
  else if p.maxAmount.any (fun mx => decide (maxAmount > mx)) then
    false
  else
    true

/-- Pattern.matchesTags (`internal/categorizer/types.go`): every required tag
must be present among the transaction's tags (the Go code materialises the
transaction tags as a set map; membership is the same). -/
def Pattern.matchesTags (p : Pattern) (tx : Transaction) : Bool :=
  p.tags.all (fun requiredTag => tx.tags.contains requiredTag)

/-- Pattern.Matches (`internal/categorizer/types.go`, lines 140-180):
nil regex never matches; then amount constraints, then tag requirements,
then the regex against the configured fields. -/
def Pattern.Matches (p : Pattern) (tx : Transaction) : Bool :=
  match p.regex with
  | none => false
  | some regex =>
    if (p.minAmount.isSome || p.maxAmount.isSome) && !p.matchesAmount tx then
      false
    else if !p.tags.isEmpty && !p.matchesTags tx then
      false
    else if p.fields.isEmpty || contains p.fields "any" then
      regex.matchString tx.payee || regex.matchString tx.narration
    else
      p.fields.any (fun field =>
        (field == "payee" && regex.matchString tx.payee) ||
        (field == "narration" && regex.matchString tx.narration))

/-- Amount test as the specification words it (for comparison with the
source's `Pattern.matchesAmount`): some posting's amount has absolute value
within the inclusive `[minAmount, maxAmount]` range, an unset bound being
unbounded on that side. -/
def specAmountOk (p : Pattern) (tx : Transaction) : Bool :=
  tx.postings.any (fun posting =>
    match posting.amount with
    | none => false
    | some a =>
      (p.minAmount.all (fun mn => decide (mn ≤ |a.number|))) &&
      (p.maxAmount.all (fun mx => decide (|a.number| ≤ mx))))

/-- Composite ranking comparator passed to `sort.Slice` in
`NewPatternMatcherWithConfig` and `sortPatterns`: priority descending, then
confidence descending, then accuracy descending. -/
def keyLess (p q : Pattern) : Bool :=
  if p.priority ≠ q.priority then decide (p.priority > q.priority)
  else if p.confidence ≠ q.confidence then decide (p.confidence > q.confidence)
  else decide (p.statistics.accuracy > q.statistics.accuracy)

/-- Ranking key of a pattern: the triple the comparator orders by. -/
def rankKey (p : Pattern) : Int × ℚ × ℚ :=
  (p.priority, p.confidence, p.statistics.accuracy)

/-- Strict lexicographic order on ranking keys (first component `Int`,
then two `ℚ` components). -/
def rankLt (a b : Int × ℚ × ℚ) : Prop :=
  a.1 < b.1 ∨ (a.1 = b.1 ∧ (a.2.1 < b.2.1 ∨ (a.2.1 = b.2.1 ∧ a.2.2 < b.2.2)))

/-- A pattern list is key-ordered when no later element strictly precedes an
earlier one under the ranking comparator. This is what Go's `sort.Slice`
guarantees of its output. -/
def KeyOrdered (l : List Pattern) : Prop :=
  l.Pairwise (fun a b => keyLess b a = false)

/-- Contract of the `sort.Slice` calls in `NewPatternMatcherWithConfig` and
`PatternMatcher.sortPatterns`: the output is a permutation of the input that
is key-ordered. Go documents `sort.Slice` as not guaranteed to be stable, so
this contract is everything the code promises about the result. -/
def IsSortSliceResult (input output : List Pattern) : Prop :=
  input.Perm output ∧ KeyOrdered output

/-- Insertion step of the executable sorting model: insert `x` before the
first element it strictly precedes. -/
def insertByKey (x : Pattern) : List Pattern → List Pattern
  | [] => [x]
  | y :: ys => if keyLess x y then x :: y :: ys else y :: insertByKey x ys

/-- Executable model of the `sort.Slice` call with the ranking comparator:
one comparator-sorted permutation of the input (insertion sort). The lemma
`sortPatterns_isSortSliceResult` below shows it satisfies the `sort.Slice`
contract; theorems about pattern ranking rely only on that contract. -/
def sortPatterns (l : List Pattern) : List Pattern :=
  l.foldr insertByKey []

/-- MatcherConfig (`PatternMatcher` source file). -/
structure MatcherConfig where
  earlyExitThreshold : ℚ
  maxAlternatives : Int

/-- DefaultMatcherConfig: threshold 0.95, three alternatives. -/
def DefaultMatcherConfig : MatcherConfig :=
  { earlyExitThreshold := (0.95 : ℚ), maxAlternatives := 3 }

/-- PatternMatcher state (`PatternMatcher` source file). -/
structure PatternMatcher where
  patterns : List Pattern
  earlyExitThreshold : ℚ
  maxAlternatives : Int

/-- NewPatternMatcherWithConfig: copy the patterns, sort them by the
composite ranking key, and record the configuration. -/
def NewPatternMatcherWithConfig (patterns : List Pattern) (config : MatcherConfig) :
    PatternMatcher :=
  { patterns := sortPatterns patterns
    earlyExitThreshold := config.earlyExitThreshold
    maxAlternatives := config.maxAlternatives }

/-- NewPatternMatcher: construction with the default configuration. -/
def NewPatternMatcher (patterns : List Pattern) : PatternMatcher :=
  NewPatternMatcherWithConfig patterns DefaultMatcherConfig

/-- PatternMatcher.AddPattern: append then re-sort. -/
def PatternMatcher.AddPattern (pm : PatternMatcher) (pattern : Pattern) : PatternMatcher :=
  { pm with patterns := sortPatterns (pm.patterns ++ [pattern]) }

/-- PatternMatcher.GetPattern: first pattern with the given ID, if any. -/
def PatternMatcher.GetPattern (pm : PatternMatcher) (id : String) : Option Pattern :=
  pm.patterns.find? (fun p => p.id == id)

/-- Alternative suggestion record (`internal/categorizer/types.go`). -/
structure Alternative where
  category : String
  confidence : ℚ
  reason : String

/-- Suggestion record (`internal/categorizer/types.go`). -/
structure Suggestion where
  transaction : Transaction
  category : String
  confidence : ℚ
  pattern : Option Pattern
  source : String
  reason : String
  alternatives : List Alternative
  metadata : List (String × String)
  created : Nat

/-- PatternMatcher.calculateConfidence: the authored confidence when there is
no feedback history, otherwise the 70/30 blend of authored confidence and
recorded accuracy. -/
def PatternMatcher.calculateConfidence (_pm : PatternMatcher) (pattern : Pattern) : ℚ :=
  let baseConfidence := pattern.confidence
  if pattern.statistics.acceptCount + pattern.statistics.rejectCount > 0 then
    baseConfidence * (0.7 : ℚ) + pattern.statistics.accuracy * (0.3 : ℚ)
  else
    baseConfidence

/-- PatternMatcher.generateReason. The `%.0f` percentage rendering is
modelled with `round`; no verified property depends on the reason text. -/
def PatternMatcher.generateReason (_pm : PatternMatcher) (pattern : Pattern) : String :=
  let reason := "Matched pattern \x27" ++ pattern.name ++ "\x27"
  let totalMatches := pattern.statistics.acceptCount + pattern.statistics.rejectCount
  if totalMatches > 0 then
    reason ++ " (accuracy: " ++ toString (round (pattern.statistics.accuracy * 100)) ++
      "% from " ++ toString totalMatches ++ " previous matches)"
  else
    reason

/-- Alternatives loop of `createSuggestion`: walk every match, appending
those with an ID different from the best match while fewer than
`maxAlternatives` alternatives have been collected. -/
def PatternMatcher.collectAlternatives (pm : PatternMatcher) (best : Pattern) :
    List Pattern → List Alternative → List Alternative
  | [], acc => acc
  | pattern :: rest, acc =>
    if pattern.id ≠ best.id ∧ (acc.length : Int) < pm.maxAlternatives then
      pm.collectAlternatives best rest
        (acc ++ [{ category := pattern.category
                   confidence := pm.calculateConfidence pattern
                   reason := pm.generateReason pattern }])
    else
      pm.collectAlternatives best rest acc

/-- PatternMatcher.createSuggestion: best match plus alternatives drawn from
the other matches. `now` stands for `time.Now()`. -/
def PatternMatcher.createSuggestion (pm : PatternMatcher) (tx : Transaction)
    (best : Pattern) (allMatches : List Pattern) (now : Nat) : Suggestion :=
  { transaction := tx
    category := best.category
    confidence := pm.calculateConfidence best
    pattern := some best
    source := "pattern"
    reason := pm.generateReason best
    alternatives := pm.collectAlternatives best allMatches []
    metadata := []
    created := now }

/-- Scanning loop of `PatternMatcher.Match`: record each matching pattern in
encounter order; when a match's static confidence reaches the early-exit
threshold, stop (that match is recorded, nothing after it is examined). -/
def PatternMatcher.matchCollect (pm : PatternMatcher) (tx : Transaction) :
    List Pattern → List Pattern
  | [] => []
  | pattern :: rest =>
    if pattern.Matches tx then
      if pattern.confidence ≥ pm.earlyExitThreshold then [pattern]
      else pattern :: pm.matchCollect tx rest
    else
      pm.matchCollect tx rest

/-- PatternMatcher.Match: nil transaction is an error; otherwise scan the
ranked patterns (with early exit), the best match being the first match;
no match yields `ok none` (Go's `nil, nil`). -/
def PatternMatcher.Match (pm : PatternMatcher) (tx : Option Transaction) (now : Nat) :
    Except String (Option Suggestion) :=
  match tx with
  | none => .error "transaction cannot be nil"
  | some tx =>
    let allMatches := pm.matchCollect tx pm.patterns
    match allMatches with
    | [] => .ok none
    | best :: rest => .ok (some (pm.createSuggestion tx best (best :: rest) now))

/-- Pattern.UpdateStatistics (`internal/categorizer/types.go`): bump
MatchCount, bump Accept- or RejectCount, stamp LastMatched, and recompute
Accuracy as AcceptCount/(AcceptCount+RejectCount) whenever the total is
positive (the Go function performs these four field assignments in
sequence; they touch disjoint fields, so they are rendered as one record
built from the post-update counts). -/
def Pattern.UpdateStatistics (p : Pattern) (accepted : Bool) (now : Nat) : Pattern :=
  let acceptCount :=
    if accepted then p.statistics.acceptCount + 1 else p.statistics.acceptCount
  let rejectCount :=
    if accepted then p.statistics.rejectCount else p.statistics.rejectCount + 1
  let total := acceptCount + rejectCount
  { p with statistics :=
      { matchCount := p.statistics.matchCount + 1
        acceptCount := acceptCount
        rejectCount := rejectCount
        lastMatched := now
        accuracy :=
          if total > 0 then (acceptCount : ℚ) / (total : ℚ)
          else p.statistics.accuracy } }

/-- In-place update through the pointer returned by `GetPattern`: the first
pattern carrying the ID is replaced by its updated value. -/
def updateFirstById (id : String) (accepted : Bool) (now : Nat) :
    List Pattern → List Pattern
  | [] => []
  | p :: rest =>
    if p.id == id then p.UpdateStatistics accepted now :: rest
    else p :: updateFirstById id accepted now rest

/-- PatternMatcher.UpdateStatistics: unknown ID is a not-found error leaving
the matcher untouched; otherwise the first pattern with the ID is updated
and the list re-sorted. The pair returns the Go error value together with
the (possibly unchanged) receiver. -/
def PatternMatcher.UpdateStatistics (pm : PatternMatcher) (patternID : String)
    (accepted : Bool) (now : Nat) : Except String Unit × PatternMatcher :=
  match pm.GetPattern patternID with
  | none => (.error ("pattern not found: " ++ patternID), pm)
  | some _ =>
    (.ok (), { pm with patterns := sortPatterns (updateFirstById patternID accepted now pm.patterns) })

/-- PatternYAML: a pattern as decoded from the YAML document (loader source
file). YAML decoding gives absent fields their zero values, so an omitted
`confidence` and an explicit `confidence: 0` both decode to `0`. -/
structure PatternYAML where
  id : String
  name : String
  pattern : String
  category : String
  fields : List String
  priority : Int
  confidence : ℚ
  minAmount : Option ℚ
  maxAmount : Option ℚ
  tags : List String
  metadata : List (String × String)

/-- PatternFile: the versioned YAML document. `yaml.Marshal` followed by
`yaml.Unmarshal` is the identity on the contents of this structure, so the
structure itself stands for the serialized bytes. -/
structure PatternFile where
  version : String
  patterns : List PatternYAML

/-- LoaderConfig (loader source file). -/
structure LoaderConfig where
  defaultConfidence : ℚ
  defaultFields : List String
  strictMode : Bool

/-- DefaultLoaderConfig: confidence 0.7, fields `[any]`, strict. -/
def DefaultLoaderConfig : LoaderConfig :=
  { defaultConfidence := (0.7 : ℚ), defaultFields := ["any"], strictMode := true }

/-- Local `fields` of `convertPattern`: the YAML fields with the configured
default substituted for the empty case. -/
def effectiveFields (cfg : LoaderConfig) (y : PatternYAML) : List String :=
  if y.fields.isEmpty then cfg.defaultFields else y.fields

/-- Local `confidence` of `convertPattern`: the YAML confidence with the
configured default substituted for the (zero-valued) omitted case. -/
def effectiveConfidence (cfg : LoaderConfig) (y : PatternYAML) : ℚ :=
  if y.confidence = 0 then cfg.defaultConfidence else y.confidence

/-- Zero-valued `PatternStatistics` (Go's `PatternStatistics{}`). -/
def emptyStats : PatternStatistics :=
  { matchCount := 0, acceptCount := 0, rejectCount := 0, lastMatched := 0, accuracy := 0 }

/-- Loader.convertPattern: required-field checks, regex compilation,
defaulting of fields and confidence, range/enum/bounds validation, then the
fully built Pattern. `compile` stands for `regexp.Compile` (`none` models a
compilation error); `now` stands for `time.Now()`. Formatted numeric detail
inside error strings is elided; no claim depends on it. The Go locals
`fields` and `confidence` are the named helpers `effectiveFields` and
`effectiveConfidence`. -/
def convertPattern (compile : String → Option GoRegex) (cfg : LoaderConfig)
    (y : PatternYAML) (now : Nat) : Except String Pattern :=
  if y.id = "" then .error "missing required field: id"
  else if y.name = "" then .error "missing required field: name"
  else if y.pattern = "" then .error "missing required field: pattern"
  else if y.category = "" then .error "missing required field: category"
  else
    match compile y.pattern with
    | none => .error "invalid regex pattern"
    | some regex =>
      if effectiveConfidence cfg y < 0 ∨ effectiveConfidence cfg y > 1 then
        .error "confidence must be between 0 and 1"
      else
        match (effectiveFields cfg y).find?
            (fun f => !(f == "payee") && !(f == "narration") && !(f == "any")) with
        | some f => .error ("invalid field: " ++ f ++ " (must be: payee, narration, or any)")
        | none =>
          if y.minAmount.any (fun mn => y.maxAmount.any (fun mx => decide (mn > mx))) then
            .error "min_amount cannot be greater than max_amount"
          else
            .ok { id := y.id
                  name := y.name
                  pattern := y.pattern
                  regex := some regex
                  category := y.category
                  fields := effectiveFields cfg y
                  priority := y.priority
                  confidence := effectiveConfidence cfg y
                  minAmount := y.minAmount
                  maxAmount := y.maxAmount
                  tags := y.tags
                  metadata := y.metadata
                  statistics := emptyStats
                  created := now
                  updated := now }

/-- Conversion loop of `Loader.LoadYAML` over the decoded patterns, carrying
the running index `i`: in strict mode the first failure aborts the whole
load with an error naming the pattern's index and ID; in lenient mode
failing patterns are skipped. -/
def loadLoop (compile : String → Option GoRegex) (cfg : LoaderConfig) (now : Nat) :
    Nat → List PatternYAML → Except String (List Pattern)
  | _, [] => .ok []
  | i, y :: rest =>
    match convertPattern compile cfg y now with
    | .ok p => (loadLoop compile cfg now (i + 1) rest).map (fun ps => p :: ps)
    | .error e =>
      if cfg.strictMode then
        .error ("error in pattern " ++ toString i ++ " (" ++ y.id ++ "): " ++ e)
      else
        loadLoop compile cfg now (i + 1) rest

/-- Loader.LoadYAML from the point where the YAML bytes have been decoded
into a `PatternFile`: version check, then the conversion loop. -/
def LoadYAML (compile : String → Option GoRegex) (cfg : LoaderConfig)
    (pf : PatternFile) (now : Nat) : Except String (List Pattern) :=
  if pf.version ≠ "" ∧ pf.version ≠ "1" then
    .error ("unsupported patterns file version: " ++ pf.version ++ " (expected: 1)")
  else
    loadLoop compile cfg now 0 pf.patterns

/-- Per-pattern inverse mapping used by `Loader.SaveFile`. -/
def patternToYAML (p : Pattern) : PatternYAML :=
  { id := p.id
    name := p.name
    pattern := p.pattern
    category := p.category
    fields := p.fields
    priority := p.priority
    confidence := p.confidence
    minAmount := p.minAmount
    maxAmount := p.maxAmount
    tags := p.tags
    metadata := p.metadata }

/-- Loader.SaveFile: the version-1 document written to disk (the YAML bytes
are modelled by the document contents, see `PatternFile`). -/
def SaveFile (patterns : List Pattern) : PatternFile :=
  { version := "1", patterns := patterns.map patternToYAML }

/-- TransactionIndex (`internal/beancount/parser.go`). -/
structure TransactionIndex where
  date : Nat
  payee : String
  filePath : String
  filePosition : Int
  lineNumber : Int
  deriving DecidableEq, Repr

/-- Index built by the forward scan (`internal/beancount/parser.go`). -/
structure FileIndex where
  transactions : List TransactionIndex
  accounts : List String
  commodities : List String
  deriving DecidableEq, Repr

/-- Cache of recently accessed transactions (`internal/beancount/parser.go`):
the Go `map[int]*Transaction` is modelled as an association list with
distinct keys. -/
structure Cache where
  transactions : List (Int × Transaction)
  maxSize : Nat
  deriving DecidableEq, Repr

/-- An opened ledger file (`internal/beancount/parser.go`). -/
structure BeanFile where
  path : String
  index : FileIndex
  cache : Cache
  deriving DecidableEq, Repr

/-- File.parseTransactionAt: open the named file, seek, parse one
transaction, then stamp the file position and line number. `parse` stands
for the single-transaction parser reading the file's (unchanging) bytes;
`none` models an open or parse failure. -/
def parseTransactionAt (parse : String → Int → Int → Option Transaction)
    (filePath : String) (position : Int) (lineNumber : Int) : Except String Transaction :=
  match parse filePath position lineNumber with
  | none => .error ("failed to parse transaction at line " ++ toString lineNumber)
  | some tx => .ok { tx with filePosition := position, lineNumber := lineNumber }

/-- Go map assignment `m[k] = v` on the association-list model. -/
def mapInsert (entries : List (Int × Transaction)) (k : Int) (v : Transaction) :
    List (Int × Transaction) :=
  if entries.any (fun e => e.1 == k) then
    entries.map (fun e => if e.1 == k then (k, v) else e)
  else
    entries ++ [(k, v)]

/-- Go `delete(m, k)` on the association-list model. -/
def mapErase (entries : List (Int × Transaction)) (k : Int) : List (Int × Transaction) :=
  entries.filter (fun e => !(e.1 == k))

/-- Eviction scan of `GetTransaction`: the smallest key of the cache map,
starting the running minimum at `start` (Go starts it at the ordinal just
inserted). The result does not depend on map iteration order. -/
def minKeyFrom (start : Int) (entries : List (Int × Transaction)) : Int :=
  entries.foldl (fun m e => if e.1 < m then e.1 else m) start

/-- File.GetTransaction (`internal/beancount/parser.go`, lines 81-114):
bounds check, cache lookup, lazy re-parse on miss, cache insert, and
smallest-ordinal eviction when the capacity is exceeded. Returns the Go
result together with the new file state. -/
def GetTransaction (parse : String → Int → Int → Option Transaction)
    (f : BeanFile) (index : Int) : Except String Transaction × BeanFile :=
  if index < 0 ∨ index ≥ (f.index.transactions.length : Int) then
    (.error ("index out of range: " ++ toString index), f)
  else
    match f.cache.transactions.lookup index with
    | some tx => (.ok tx, f)
    | none =>
      match f.index.transactions.get? index.toNat with
      | none => (.error ("index out of range: " ++ toString index), f)
      | some txIndex =>
        match parseTransactionAt parse txIndex.filePath txIndex.filePosition
            txIndex.lineNumber with
        | .error e =>
          (.error ("failed to parse transaction at index " ++ toString index ++ ": " ++ e), f)
        | .ok tx =>
          let inserted := mapInsert f.cache.transactions index tx
          let entries :=
            if inserted.length > f.cache.maxSize then
              mapErase inserted (minKeyFrom index inserted)
            else
              inserted
          (.ok tx, { f with cache := { f.cache with transactions := entries } })

/-- Well-formedness of an open file under fixed bytes `parse`: cache keys
are distinct, the cache respects its capacity, and every cached entry is
exactly what re-parsing its indexed offset produces. `Open` establishes
this (the cache starts empty) and `GetTransaction` preserves it. -/
def CacheConsistent (parse : String → Int → Int → Option Transaction)
    (f : BeanFile) : Prop :=
  (f.cache.transactions.map Prod.fst).Nodup ∧
  f.cache.transactions.length ≤ f.cache.maxSize ∧
  ∀ e ∈ f.cache.transactions,
    ∃ txIndex, f.index.transactions.get? e.1.toNat = some txIndex ∧
      parseTransactionAt parse txIndex.filePath txIndex.filePosition
        txIndex.lineNumber = .ok e.2

/-- Concrete regex matching every string (used by concrete test inputs). -/
def anyRegex : GoRegex :=
  { source := ".", matchString := fun _ => true }

/-- Concrete pattern with a minimum-amount constraint of 50 and an
everything-matching regex. -/
def cexPattern : Pattern :=
  { id := "cex", name := "cex", pattern := ".", regex := some anyRegex
    category := "Expenses:Test", fields := [], priority := 0
    confidence := (0.9 : ℚ), minAmount := some 50, maxAmount := none
    tags := [], metadata := [], statistics := emptyStats, created := 0, updated := 0 }

/-- Concrete transaction whose postings carry amounts 100 and -5. -/
def cexTx : Transaction :=
  { date := 0, flag := "*", payee := "SHOP", narration := "stuff"
    tags := [], links := []
    postings :=
      [{ account := "Expenses:Stuff", amount := some { number := 100, commodity := "USD" }
         cost := none, price := none, metadata := [] },
       { account := "Assets:Cash", amount := some { number := -5, commodity := "USD" }
         cost := none, price := none, metadata := [] }]
    metadata := [], filePosition := 0, lineNumber := 0 }

/-- Concrete pattern with authored confidence 0.8 and a 7-accept / 3-reject
history (accuracy 0.7, as `UpdateStatistics` maintains). -/
def c4Pattern : Pattern :=
  { id := "c4", name := "c4", pattern := "X", regex := some anyRegex
    category := "Expenses:Test", fields := ["any"], priority := 0
    confidence := (0.8 : ℚ), minAmount := none, maxAmount := none
    tags := [], metadata := []
    statistics := { matchCount := 10, acceptCount := 7, rejectCount := 3
                    lastMatched := 0, accuracy := (0.7 : ℚ) }
    created := 0, updated := 0 }

/-- Concrete stand-in for `regexp.Compile` that always succeeds (with a
matcher that matches nothing). -/
def compileW : String → Option GoRegex :=
  fun s => some { source := s, matchString := fun _ => false }

/-- Concrete YAML pattern with an explicit confidence of 0 (indistinguishable
from an omitted confidence) and otherwise valid fields. -/
def y10 : PatternYAML :=
  { id := "c10", name := "c10", pattern := "COFFEE", category := "Expenses:Coffee"
    fields := [], priority := 0, confidence := 0
    minAmount := none, maxAmount := none, tags := [], metadata := [] }

/-- Expected conversion result of `y10` under the default loader
configuration and `compileW`. -/
def y10res : Pattern :=
  { id := "c10", name := "c10", pattern := "COFFEE"
    regex := some { source := "COFFEE", matchString := fun _ => false }
    category := "Expenses:Coffee", fields := ["any"], priority := 0
    confidence := (0.7 : ℚ), minAmount := none, maxAmount := none
    tags := [], metadata := [], statistics := emptyStats, created := 0, updated := 0 }

/-- Concrete one-pattern document holding `y10`. -/
def pf10 : PatternFile :=
  { version := "1", patterns := [y10] }

/-- Lenient loader configuration (default with strict mode off). -/
def lenientConfig : LoaderConfig :=
  { DefaultLoaderConfig with strictMode := false }

/-- Valid concrete YAML pattern A. -/
def yA : PatternYAML :=
  { id := "a", name := "A", pattern := "ALPHA", category := "Expenses:A"
    fields := ["payee"], priority := 10, confidence := (0.5 : ℚ)
    minAmount := none, maxAmount := none, tags := ["t"], metadata := [("k", "v")] }

/-- Invalid concrete YAML pattern: `min_amount` exceeds `max_amount`. -/
def yBad : PatternYAML :=
  { id := "bad", name := "Bad", pattern := "BAD", category := "Expenses:Bad"
    fields := ["payee"], priority := 0, confidence := (0.5 : ℚ)
    minAmount := some 10, maxAmount := some 5, tags := [], metadata := [] }

/-- Valid concrete YAML pattern B. -/
def yB : PatternYAML :=
  { id := "b", name := "B", pattern := "BETA", category := "Expenses:B"
    fields := ["narration"], priority := 5, confidence := (0.6 : ℚ)
    minAmount := some 1, maxAmount := some 9, tags := [], metadata := [] }

/-- Expected conversion result of `yA`. -/
def resA : Pattern :=
  { id := "a", name := "A", pattern := "ALPHA"
    regex := some { source := "ALPHA", matchString := fun _ => false }
    category := "Expenses:A", fields := ["payee"], priority := 10
    confidence := (0.5 : ℚ), minAmount := none, maxAmount := none
    tags := ["t"], metadata := [("k", "v")], statistics := emptyStats
    created := 0, updated := 0 }

/-- Expected conversion result of `yB`. -/
def resB : Pattern :=
  { id := "b", name := "B", pattern := "BETA"
    regex := some { source := "BETA", matchString := fun _ => false }
    category := "Expenses:B", fields := ["narration"], priority := 5
    confidence := (0.6 : ℚ), minAmount := some 1, maxAmount := some 9
    tags := [], metadata := [], statistics := emptyStats
    created := 0, updated := 0 }

/-- Concrete three-pattern document whose middle pattern is invalid. -/
def pfC3 : PatternFile :=
  { version := "1", patterns := [yA, yBad, yB] }

/-- Concrete pattern P1 of the ranking example: priority 10, confidence 0.9. -/
def cP1 : Pattern :=
  { id := "P1", name := "P1", pattern := "X", regex := none
    category := "Expenses:P1", fields := [], priority := 10, confidence := (0.9 : ℚ)
    minAmount := none, maxAmount := none, tags := [], metadata := []
    statistics := emptyStats, created := 0, updated := 0 }

/-- Concrete pattern P2 of the ranking example: priority 10, confidence 0.95. -/
def cP2 : Pattern :=
  { id := "P2", name := "P2", pattern := "X", regex := none
    category := "Expenses:P2", fields := [], priority := 10, confidence := (0.95 : ℚ)
    minAmount := none, maxAmount := none, tags := [], metadata := []
    statistics := emptyStats, created := 0, updated := 0 }

/-- Concrete pattern fully tied with `cTie2` on the ranking key. -/
def cTie1 : Pattern :=
  { id := "tie1", name := "Tie1", pattern := "X", regex := none
    category := "Expenses:T", fields := [], priority := 10, confidence := 1
    minAmount := none, maxAmount := none, tags := [], metadata := []
    statistics := emptyStats, created := 0, updated := 0 }

/-- Concrete pattern fully tied with `cTie1` on the ranking key. -/
def cTie2 : Pattern :=
  { id := "tie2", name := "Tie2", pattern := "X", regex := none
    category := "Expenses:T", fields := [], priority := 10, confidence := 1
    minAmount := none, maxAmount := none, tags := [], metadata := []
    statistics := emptyStats, created := 0, updated := 0 }

/-- Concrete high-priority, confidence-1 pattern matching everything. -/
def pHigh : Pattern :=
  { id := "high", name := "High", pattern := "T", regex := some anyRegex
    category := "Expenses:A", fields := ["any"], priority := 10, confidence := 1
    minAmount := none, maxAmount := none, tags := [], metadata := []
    statistics := emptyStats, created := 0, updated := 0 }

/-- Concrete low-priority pattern matching everything. -/
def pLow : Pattern :=
  { id := "low", name := "Low", pattern := "T", regex := some anyRegex
    category := "Expenses:B", fields := ["any"], priority := 5, confidence := 0
    minAmount := none, maxAmount := none, tags := [], metadata := []
    statistics := emptyStats, created := 0, updated := 0 }

/-- Concrete transaction for the matcher examples. -/
def txW : Transaction :=
  { date := 0, flag := "*", payee := "TEST", narration := "t"
    tags := [], links := [], postings := [], metadata := []
    filePosition := 0, lineNumber := 0 }

/-- Matcher over `pHigh`/`pLow` whose early-exit threshold is 1. -/
def pmC6 : PatternMatcher :=
  NewPatternMatcherWithConfig [pHigh, pLow]
    { earlyExitThreshold := 1, maxAlternatives := 3 }

/-- Concrete index entries for the ledger-file examples. -/
def txIdx0 : TransactionIndex :=
  { date := 0, payee := "P", filePath := "main.bean", filePosition := 0, lineNumber := 1 }

/-- Second concrete index entry, at a later offset. -/
def txIdx1 : TransactionIndex :=
  { date := 0, payee := "Q", filePath := "main.bean", filePosition := 50, lineNumber := 5 }

/-- Concrete single-transaction parser standing for a fixed ledger byte
content: every (path, offset, line) parses to `txW`. -/
def parseW : String → Int → Int → Option Transaction :=
  fun _ _ _ => some txW

/-- `txW` as stamped by `parseTransactionAt` for `txIdx0`. -/
def txW0 : Transaction :=
  { txW with filePosition := 0, lineNumber := 1 }

/-- `txW` as stamped by `parseTransactionAt` for `txIdx1`. -/
def txW1 : Transaction :=
  { txW with filePosition := 50, lineNumber := 5 }

/-- Concrete open ledger file with one indexed transaction and an empty
cache of capacity 1. -/
def fW : BeanFile :=
  { path := "main.bean"
    index := { transactions := [txIdx0], accounts := [], commodities := [] }
    cache := { transactions := [], maxSize := 1 } }

/-- Concrete open ledger file with two indexed transactions and a full
(capacity-1) cache holding ordinal 0. -/
def fW9 : BeanFile :=
  { path := "main.bean"
    index := { transactions := [txIdx0, txIdx1], accounts := [], commodities := [] }
    cache := { transactions := [(0, txW0)], maxSize := 1 } }

-- ## Theorems

/-- C1 counterexample. `cexTx` has a posting of amount 100, whose absolute
value lies within `cexPattern`'s amount range `[50, ∞)` (so the claim's
amount criterion holds), yet the code's amount check fails — the running
value ends at 5 because the later posting's amount -5 overwrites the
running value with its negation — and the pattern does not match even
though its regex matches every string. -/
theorem specAmountOk_ne_matchesAmount :
    specAmountOk cexPattern cexTx = true ∧
    cexPattern.matchesAmount cexTx = false ∧
    cexPattern.Matches cexTx = false ∧
    anyRegex.matchString cexTx.payee = true := by
  refine ⟨by decide, by decide, ?_, rfl⟩
  rfl

/-- C1 (amended): the amount check of `Pattern.Matches` succeeds exactly
when the single representative value computed by the posting scan
(`amountLoop`, started at 0) lies within the inclusive `[MinAmount,
MaxAmount]` range, an unset bound being unbounded on that side; whenever an
amount bound is set and this check fails, the pattern does not match
regardless of its regex, fields, or tags. For a transaction with a single
posting the representative value is that posting's absolute amount. -/
theorem matchesAmount_representative (p : Pattern) (tx : Transaction) :
    (p.matchesAmount tx = true ↔
      ((∀ mn ∈ p.minAmount, mn ≤ amountLoop tx.postings 0) ∧
       (∀ mx ∈ p.maxAmount, amountLoop tx.postings 0 ≤ mx))) ∧
    ((p.minAmount.isSome || p.maxAmount.isSome) = true → p.matchesAmount tx = false →
      p.Matches tx = false) ∧
    (∀ (post : Posting) (a : Amount), post.amount = some a →
      amountLoop [post] 0 = |a.number|) := by
  refine ⟨?_, ?_, ?_⟩
  · cases hmn : p.minAmount <;> cases hmx : p.maxAmount <;>
      simp [Pattern.matchesAmount, hmn, hmx, not_lt]
  · intro hsome hfail
    unfold Pattern.Matches
    cases hre : p.regex with
    | none => rfl
    | some regex =>
      simp only
      rw [hsome, hfail]
      rfl
  · intro post a ha
    rcases lt_trichotomy a.number 0 with h | h | h
    · simp [amountLoop, ha, h, not_lt.mpr h.le, abs_of_neg h]
    · simp [amountLoop, ha, h, abs_of_nonneg h.ge]
    · simp [amountLoop, ha, h, not_lt.mpr h.le, abs_of_pos h]

/-- Witness for `matchesAmount_representative`: its hypotheses hold at the
concrete pattern and transaction above. -/
theorem matchesAmount_representative_witness :
    (cexPattern.minAmount.isSome || cexPattern.maxAmount.isSome) = true ∧
    cexPattern.matchesAmount cexTx = false ∧
    cexPattern.Matches cexTx = false :=
  ⟨by decide, by decide,
    (matchesAmount_representative cexPattern cexTx).2.1 (by decide) (by decide)⟩

/-- Every alternative produced by the alternatives loop either was already in
the accumulator or is the alternative record of one of the scanned
patterns. -/
lemma collectAlternatives_mem (pm : PatternMatcher) (best : Pattern)
    (l : List Pattern) (acc : List Alternative) (alt : Alternative)
    (h : alt ∈ pm.collectAlternatives best l acc) :
    alt ∈ acc ∨ ∃ q ∈ l,
      alt = { category := q.category
              confidence := pm.calculateConfidence q
              reason := pm.generateReason q } := by
  induction l generalizing acc with
  | nil => exact Or.inl h
  | cons q rest ih =>
    unfold PatternMatcher.collectAlternatives at h
    split at h
    · rcases ih _ h with hacc | ⟨r, hr, hFrom⟩
      · rcases List.mem_append.mp hacc with hacc | hq
        · exact Or.inl hacc
        · exact Or.inr ⟨q, List.mem_cons_self _ _, List.mem_singleton.mp hq⟩
      · exact Or.inr ⟨r, List.mem_cons_of_mem _ hr, hFrom⟩
    · rcases ih _ h with hacc | ⟨r, hr, hFrom⟩
      · exact Or.inl hacc
      · exact Or.inr ⟨r, List.mem_cons_of_mem _ hr, hFrom⟩

/-- C4: `calculateConfidence` returns the authored confidence when there is
no feedback history and the 70/30 blend of authored confidence and recorded
accuracy otherwise; authored confidence 0.8 with 7 accepts and 3 rejects
(accuracy 0.7) blends to 0.77, within 1e-4 of the documented value; and the
blended value is the confidence attached to the suggestion built from a
match, as well as to each of its alternatives. -/
theorem calculateConfidence_spec (pm : PatternMatcher) (p : Pattern)
    (tx : Transaction) (best : Pattern) (allMatches : List Pattern) (now : Nat) :
    (p.statistics.acceptCount + p.statistics.rejectCount = 0 →
      pm.calculateConfidence p = p.confidence) ∧
    (p.statistics.acceptCount + p.statistics.rejectCount > 0 →
      pm.calculateConfidence p =
        (0.7 : ℚ) * p.confidence + (0.3 : ℚ) * p.statistics.accuracy) ∧
    |pm.calculateConfidence c4Pattern - (0.77 : ℚ)| ≤ (1 : ℚ) / 10000 ∧
    (pm.createSuggestion tx best allMatches now).confidence =
      pm.calculateConfidence best ∧
    (∀ alt ∈ (pm.createSuggestion tx best allMatches now).alternatives,
      ∃ q ∈ allMatches, alt.confidence = pm.calculateConfidence q) := by
  refine ⟨?_, ?_, ?_, rfl, ?_⟩
  · intro h
    simp [PatternMatcher.calculateConfidence, h]
  · intro h
    simp only [PatternMatcher.calculateConfidence, if_pos h]
    ring
  · have : pm.calculateConfidence c4Pattern = (0.77 : ℚ) := by
      simp [PatternMatcher.calculateConfidence, c4Pattern]
      norm_num
    rw [this]
    norm_num
  · intro alt halt
    rcases collectAlternatives_mem pm best allMatches [] alt halt with h | ⟨q, hq, hFrom⟩
    · simp at h
    · exact ⟨q, hq, by rw [hFrom]⟩

/-- Witness for `calculateConfidence_spec`: both history hypotheses are
discharged at concrete patterns (`cexPattern` with no history, `c4Pattern`
with 7 accepts and 3 rejects). -/
theorem calculateConfidence_spec_witness :
    (cexPattern.statistics.acceptCount + cexPattern.statistics.rejectCount = 0 ∧
      (NewPatternMatcher []).calculateConfidence cexPattern = cexPattern.confidence) ∧
    (c4Pattern.statistics.acceptCount + c4Pattern.statistics.rejectCount > 0 ∧
      (NewPatternMatcher []).calculateConfidence c4Pattern =
        (0.7 : ℚ) * c4Pattern.confidence + (0.3 : ℚ) * c4Pattern.statistics.accuracy) :=
  ⟨⟨by decide,
    (calculateConfidence_spec (NewPatternMatcher []) cexPattern cexTx c4Pattern [] 0).1
      (by decide)⟩,
   ⟨by decide,
    (calculateConfidence_spec (NewPatternMatcher []) c4Pattern cexTx c4Pattern [] 0).2.1
      (by decide)⟩⟩

/-- Characterisation of a successful `convertPattern`: every field of the
produced pattern in terms of the YAML input, plus the validation facts the
success implies. -/
lemma convertPattern_ok_char (compile : String → Option GoRegex) (cfg : LoaderConfig)
    (y : PatternYAML) (now : Nat) (p : Pattern)
    (h : convertPattern compile cfg y now = .ok p) :
    p.id = y.id ∧ p.name = y.name ∧ p.pattern = y.pattern ∧ p.category = y.category ∧
    p.fields = effectiveFields cfg y ∧ p.priority = y.priority ∧
    p.confidence = effectiveConfidence cfg y ∧
    ¬(effectiveConfidence cfg y < 0 ∨ effectiveConfidence cfg y > 1) ∧
    p.minAmount = y.minAmount ∧ p.maxAmount = y.maxAmount ∧
    p.tags = y.tags ∧ p.metadata = y.metadata ∧
    p.statistics = emptyStats ∧ p.created = now ∧ p.updated = now ∧
    (∃ regex, compile y.pattern = some regex ∧ p.regex = some regex) := by
  unfold convertPattern at h
  split at h
  · exact Except.noConfusion h
  split at h
  · exact Except.noConfusion h
  split at h
  · exact Except.noConfusion h
  split at h
  · exact Except.noConfusion h
  split at h
  · exact Except.noConfusion h
  rename_i regex hre
  split at h
  · exact Except.noConfusion h
  rename_i h5
  split at h
  · exact Except.noConfusion h
  split at h
  · exact Except.noConfusion h
  injection h with h
  subst h
  exact ⟨rfl, rfl, rfl, rfl, rfl, rfl, rfl, h5, rfl, rfl, rfl, rfl, rfl, rfl, rfl,
    regex, hre, rfl⟩

/-- Every pattern in a successful conversion loop's output is the complete
conversion of one of the input YAML patterns. -/
lemma loadLoop_ok_mem (compile : String → Option GoRegex) (cfg : LoaderConfig) (now : Nat) :
    ∀ (l : List PatternYAML) (i : Nat) (ps : List Pattern),
      loadLoop compile cfg now i l = .ok ps →
      ∀ p ∈ ps, ∃ y ∈ l, convertPattern compile cfg y now = .ok p := by
  intro l
  induction l with
  | nil =>
    intro i ps h p hp
    simp [loadLoop] at h
    subst h
    simp at hp
  | cons y rest ih =>
    intro i ps h p hp
    rw [loadLoop] at h
    split at h
    · rename_i q hc
      cases hrest : loadLoop compile cfg now (i + 1) rest with
      | ok qs =>
        rw [hrest] at h
        simp only [Except.map] at h
        injection h with h
        subst h
        rcases List.mem_cons.mp hp with hpq | hpqs
        · exact ⟨y, List.mem_cons_self _ _, by rw [hc, hpq]⟩
        · rcases ih (i + 1) qs hrest p hpqs with ⟨y2, hy2, hy2c⟩
          exact ⟨y2, List.mem_cons_of_mem _ hy2, hy2c⟩
      | error e =>
        rw [hrest] at h
        simp only [Except.map] at h
        exact Except.noConfusion h
    · split at h
      · exact Except.noConfusion h
      · rcases ih (i + 1) ps h p hp with ⟨y2, hy2, hy2c⟩
        exact ⟨y2, List.mem_cons_of_mem _ hy2, hy2c⟩

/-- C10: the loader never returns a pattern whose confidence is 0 (when the
configured default is non-zero, as it is for the default configuration's
0.7): an authored confidence of exactly 0 — indistinguishable at load time
from an omitted one — is replaced by the configured default, and the [0,1]
range validation runs only on the value obtained after this defaulting (so
with an out-of-range default, an authored 0 is rejected even though 0 lies
inside the documented range). -/
theorem loader_confidence_never_zero (compile : String → Option GoRegex)
    (cfg : LoaderConfig) (y : PatternYAML) (pf : PatternFile) (now : Nat) :
    (∀ p, convertPattern compile cfg y now = .ok p → y.confidence = 0 →
      p.confidence = cfg.defaultConfidence) ∧
    (cfg.defaultConfidence ≠ 0 →
      ∀ ps, LoadYAML compile cfg pf now = .ok ps → ∀ p ∈ ps, p.confidence ≠ 0) ∧
    (y.confidence = 0 → cfg.defaultConfidence > 1 →
      ∀ p, ¬(convertPattern compile cfg y now = .ok p)) := by
  refine ⟨?_, ?_, ?_⟩
  · intro p hok h0
    have hc := (convertPattern_ok_char compile cfg y now p hok).2.2.2.2.2.2.1
    rw [hc, effectiveConfidence, if_pos h0]
  · intro hdef ps hload p hp
    rw [LoadYAML] at hload
    split at hload
    · simp at hload
    · rcases loadLoop_ok_mem compile cfg now pf.patterns 0 ps hload p hp with ⟨y2, _, hy2c⟩
      have hc := (convertPattern_ok_char compile cfg y2 now p hy2c).2.2.2.2.2.2.1
      rw [hc, effectiveConfidence]
      split
      · exact hdef
      · next hne => exact hne
  · intro h0 hbig p hok
    have hc := (convertPattern_ok_char compile cfg y now p hok).2.2.2.2.2.2.2.1
    exact hc (Or.inr (by rw [effectiveConfidence, if_pos h0]; exact hbig))

/-- Witness for `loader_confidence_never_zero`: the concrete YAML pattern
`y10` with authored confidence 0 converts successfully under the default
configuration, and the resulting confidence is the default 0.7 rather
than 0. -/
theorem loader_confidence_never_zero_witness :
    convertPattern compileW DefaultLoaderConfig y10 0 = .ok y10res ∧
    y10.confidence = 0 ∧
    y10res.confidence = DefaultLoaderConfig.defaultConfidence ∧
    y10res.confidence ≠ 0 := by
  have hconv : convertPattern compileW DefaultLoaderConfig y10 0 = .ok y10res := by
    rw [convertPattern]
    norm_num [y10, effectiveConfidence, effectiveFields, DefaultLoaderConfig, compileW,
      y10res, emptyStats]
    rfl
  have hload : LoadYAML compileW DefaultLoaderConfig pf10 0 = .ok [y10res] := by
    rw [LoadYAML, if_neg (by decide), show pf10.patterns = [y10] from rfl, loadLoop, hconv]
    rfl
  refine ⟨hconv, rfl, ?_, ?_⟩
  · exact (loader_confidence_never_zero compileW DefaultLoaderConfig y10 pf10 0).1 y10res
      hconv rfl
  · exact (loader_confidence_never_zero compileW DefaultLoaderConfig y10 pf10 0).2.1
      (by norm_num [DefaultLoaderConfig]) [y10res] hload y10res (List.mem_singleton.mpr rfl)

/-- In strict mode, the conversion loop fails whenever any input pattern
fails to convert. -/
lemma loadLoop_strict_error (compile : String → Option GoRegex) (cfg : LoaderConfig)
    (now : Nat) (hs : cfg.strictMode = true) :
    ∀ (l : List PatternYAML) (i : Nat),
      (∃ y ∈ l, ∀ p, ¬(convertPattern compile cfg y now = .ok p)) →
      ∃ msg, loadLoop compile cfg now i l = .error msg := by
  intro l
  induction l with
  | nil =>
    intro i h
    rcases h with ⟨y, hy, _⟩
    simp at hy
  | cons y rest ih =>
    intro i h
    rw [loadLoop]
    cases hc : convertPattern compile cfg y now with
    | ok q =>
      rcases h with ⟨y2, hy2, hbad⟩
      rcases List.mem_cons.mp hy2 with rfl | hy2r
      · exact absurd hc (hbad q)
      · rcases ih (i + 1) ⟨y2, hy2r, hbad⟩ with ⟨msg, hmsg⟩
        exact ⟨msg, by rw [hmsg]; rfl⟩
    | error e =>
      rw [hs]
      exact ⟨_, rfl⟩

/-- In strict mode, when every pattern before position `pre.length` converts
and the pattern there fails with `e`, the conversion loop fails with the
message naming that pattern's running index and its ID. -/
lemma loadLoop_first_error (compile : String → Option GoRegex) (cfg : LoaderConfig)
    (now : Nat) (hs : cfg.strictMode = true) (y : PatternYAML)
    (post : List PatternYAML) (e : String)
    (hbad : convertPattern compile cfg y now = .error e) :
    ∀ (pre : List PatternYAML) (i : Nat),
      (∀ y2 ∈ pre, ∃ p, convertPattern compile cfg y2 now = .ok p) →
      loadLoop compile cfg now i (pre ++ y :: post) =
        .error ("error in pattern " ++ toString (i + pre.length) ++ " (" ++ y.id ++ "): " ++ e) := by
  intro pre
  induction pre with
  | nil =>
    intro i _
    rw [List.nil_append, loadLoop, hbad, hs]
    simp
  | cons y2 pre2 ih =>
    intro i hok
    rcases hok y2 (List.mem_cons_self _ _) with ⟨p, hp⟩
    rw [List.cons_append, loadLoop, hp,
      ih (i + 1) (fun y3 hy3 => hok y3 (List.mem_cons_of_mem _ hy3))]
    simp only [Except.map]
    have : i + 1 + pre2.length = i + (pre2.length + 1) := by omega
    rw [this]
    rfl

/-- In lenient mode, the conversion loop returns exactly the successful
conversions, in input order. -/
lemma loadLoop_lenient (compile : String → Option GoRegex) (cfg : LoaderConfig)
    (now : Nat) (hs : cfg.strictMode = false) :
    ∀ (l : List PatternYAML) (i : Nat),
      loadLoop compile cfg now i l =
        .ok (l.filterMap (fun y2 => (convertPattern compile cfg y2 now).toOption)) := by
  intro l
  induction l with
  | nil => intro i; rfl
  | cons y rest ih =>
    intro i
    rw [loadLoop]
    cases hc : convertPattern compile cfg y now with
    | ok q =>
      rw [ih (i + 1)]
      simp [List.filterMap_cons, hc, Except.toOption, Except.map]
    | error e =>
      rw [hs]
      simp only [Bool.false_eq_true, if_false]
      rw [ih (i + 1)]
      simp [List.filterMap_cons, hc, Except.toOption]

/-- C3: with a well-versioned document, (i) in strict mode the load fails
outright whenever any pattern fails to convert, (ii) the strict-mode error
message names the first offending pattern's running index and ID, (iii) in
lenient mode the load returns exactly the successfully converted patterns
in their original relative order, and (iv) every pattern a successful load
returns is the complete conversion of one of the document's patterns (never
a partial conversion). -/
theorem loadYAML_strict_lenient (compile : String → Option GoRegex) (cfg : LoaderConfig)
    (pf : PatternFile) (now : Nat) (pre post : List PatternYAML) (y : PatternYAML)
    (e : String) (hver : ¬(pf.version ≠ "" ∧ pf.version ≠ "1")) :
    (cfg.strictMode = true →
      (∃ y2 ∈ pf.patterns, ∀ p, ¬(convertPattern compile cfg y2 now = .ok p)) →
      ∃ msg, LoadYAML compile cfg pf now = .error msg) ∧
    (cfg.strictMode = true → pf.patterns = pre ++ y :: post →
      (∀ y2 ∈ pre, ∃ p, convertPattern compile cfg y2 now = .ok p) →
      convertPattern compile cfg y now = .error e →
      LoadYAML compile cfg pf now =
        .error ("error in pattern " ++ toString pre.length ++ " (" ++ y.id ++ "): " ++ e)) ∧
    (cfg.strictMode = false →
      LoadYAML compile cfg pf now =
        .ok (pf.patterns.filterMap (fun y2 => (convertPattern compile cfg y2 now).toOption))) ∧
    (∀ ps, LoadYAML compile cfg pf now = .ok ps →
      ∀ p ∈ ps, ∃ y2 ∈ pf.patterns, convertPattern compile cfg y2 now = .ok p) := by
  refine ⟨?_, ?_, ?_, ?_⟩
  · intro hs hbad
    rw [LoadYAML, if_neg hver]
    exact loadLoop_strict_error compile cfg now hs pf.patterns 0 hbad
  · intro hs hsplit hok hbad
    rw [LoadYAML, if_neg hver, hsplit,
      loadLoop_first_error compile cfg now hs y post e hbad pre 0 hok]
    simp
  · intro hs
    rw [LoadYAML, if_neg hver]
    exact loadLoop_lenient compile cfg now hs pf.patterns 0
  · intro ps hps p hp
    rw [LoadYAML, if_neg hver] at hps
    exact loadLoop_ok_mem compile cfg now pf.patterns 0 ps hps p hp

/-- Witness for `loadYAML_strict_lenient`: on the concrete three-pattern
document whose middle pattern has `min_amount > max_amount`, the strict load
fails with a message naming index 1 and ID `bad`, while the lenient load
returns exactly the two valid patterns in order. -/
theorem loadYAML_strict_lenient_witness :
    DefaultLoaderConfig.strictMode = true ∧
    convertPattern compileW DefaultLoaderConfig yBad 0 =
      .error "min_amount cannot be greater than max_amount" ∧
    LoadYAML compileW DefaultLoaderConfig pfC3 0 =
      .error "error in pattern 1 (bad): min_amount cannot be greater than max_amount" ∧
    LoadYAML compileW lenientConfig pfC3 0 = .ok [resA, resB] := by
  have hbad : convertPattern compileW DefaultLoaderConfig yBad 0 =
      .error "min_amount cannot be greater than max_amount" := by
    rw [convertPattern]
    norm_num [yBad, effectiveConfidence, effectiveFields, DefaultLoaderConfig, compileW,
      Option.any, List.find?]
    rfl
  have hbadL : convertPattern compileW lenientConfig yBad 0 =
      .error "min_amount cannot be greater than max_amount" := by
    rw [convertPattern]
    norm_num [yBad, effectiveConfidence, effectiveFields, lenientConfig,
      DefaultLoaderConfig, compileW, Option.any, List.find?]
    rfl
  have hconvA : convertPattern compileW DefaultLoaderConfig yA 0 = .ok resA := by
    rw [convertPattern]
    norm_num [yA, effectiveConfidence, effectiveFields, DefaultLoaderConfig, compileW,
      Option.any, List.find?, resA, emptyStats]
    rfl
  have hconvAL : convertPattern compileW lenientConfig yA 0 = .ok resA := by
    rw [convertPattern]
    norm_num [yA, effectiveConfidence, effectiveFields, lenientConfig, DefaultLoaderConfig,
      compileW, Option.any, List.find?, resA, emptyStats]
    rfl
  have hconvBL : convertPattern compileW lenientConfig yB 0 = .ok resB := by
    rw [convertPattern]
    norm_num [yB, effectiveConfidence, effectiveFields, lenientConfig, DefaultLoaderConfig,
      compileW, Option.any, List.find?, resB, emptyStats]
    rfl
  refine ⟨rfl, hbad, ?_, ?_⟩
  · have h2 := (loadYAML_strict_lenient compileW DefaultLoaderConfig pfC3 0 [yA] [yB] yBad
      "min_amount cannot be greater than max_amount" (by decide)).2.1 rfl rfl
      (by intro y2 hy2
          rcases List.mem_singleton.mp hy2 with rfl
          exact ⟨resA, hconvA⟩)
      hbad
    rw [h2]
    rfl
  · have h3 := (loadYAML_strict_lenient compileW lenientConfig pfC3 0 [] [] yBad ""
      (by decide)).2.2.1 rfl
    rw [h3, show pfC3.patterns = [yA, yBad, yB] from rfl]
    rw [List.filterMap_cons, hconvAL, List.filterMap_cons, hbadL,
      List.filterMap_cons, hconvBL]
    rfl

/-- When every input pattern converts, the conversion loop succeeds and
returns the conversions pointwise, in order. -/
lemma loadLoop_all_ok (compile : String → Option GoRegex) (cfg : LoaderConfig) (now : Nat) :
    ∀ (l : List PatternYAML) (i : Nat),
      (∀ y ∈ l, ∃ p, convertPattern compile cfg y now = .ok p) →
      ∃ ps, loadLoop compile cfg now i l = .ok ps ∧
        List.Forall₂ (fun y p => convertPattern compile cfg y now = .ok p) l ps := by
  intro l
  induction l with
  | nil => exact fun i _ => ⟨[], rfl, List.Forall₂.nil⟩
  | cons y rest ih =>
    intro i hok
    rcases hok y (List.mem_cons_self _ _) with ⟨q, hq⟩
    rcases ih (i + 1) (fun y2 hy2 => hok y2 (List.mem_cons_of_mem _ hy2)) with ⟨qs, hqs, hfa⟩
    refine ⟨q :: qs, ?_, List.Forall₂.cons hq hfa⟩
    rw [loadLoop, hq, hqs]
    rfl

/-- C8: loading the document written by `SaveFile` over a list of valid
patterns (each one's serialization converts successfully) succeeds, yields
the same number of patterns, and preserves pointwise each pattern's ID,
regex source, category, min/max amount constraints, tags, and metadata. -/
theorem save_load_roundtrip (compile : String → Option GoRegex) (cfg : LoaderConfig)
    (patterns : List Pattern) (now : Nat)
    (hvalid : ∀ p ∈ patterns, ∃ q,
      convertPattern compile cfg (patternToYAML p) now = .ok q) :
    ∃ ps, LoadYAML compile cfg (SaveFile patterns) now = .ok ps ∧
      ps.length = patterns.length ∧
      List.Forall₂ (fun p q =>
        q.id = p.id ∧ q.pattern = p.pattern ∧ q.category = p.category ∧
        q.minAmount = p.minAmount ∧ q.maxAmount = p.maxAmount ∧
        q.tags = p.tags ∧ q.metadata = p.metadata) patterns ps := by
  have hok : ∀ y ∈ (SaveFile patterns).patterns, ∃ p,
      convertPattern compile cfg y now = .ok p := by
    intro y hy
    rcases List.mem_map.mp hy with ⟨p, hp, rfl⟩
    exact hvalid p hp
  rcases loadLoop_all_ok compile cfg now (SaveFile patterns).patterns 0 hok with ⟨ps, hps, hfa⟩
  refine ⟨ps, ?_, ?_, ?_⟩
  · rw [LoadYAML, if_neg (by simp [SaveFile])]
    exact hps
  · have hlen := hfa.length_eq
    simpa [SaveFile] using hlen.symm
  · have hfa2 : List.Forall₂
        (fun p q => convertPattern compile cfg (patternToYAML p) now = .ok q) patterns ps := by
      have := hfa
      rw [show (SaveFile patterns).patterns = patterns.map patternToYAML from rfl] at this
      exact (List.forall₂_map_left_iff).mp this
    refine hfa2.imp ?_
    intro p q hq
    have hc := convertPattern_ok_char compile cfg (patternToYAML p) now q hq
    exact ⟨hc.1, hc.2.2.1, hc.2.2.2.1, hc.2.2.2.2.2.2.2.2.1, hc.2.2.2.2.2.2.2.2.2.1,
      hc.2.2.2.2.2.2.2.2.2.2.1, hc.2.2.2.2.2.2.2.2.2.2.2.1⟩

/-- Witness for `save_load_roundtrip`: the singleton list containing the
valid pattern `resA` round-trips, with every listed field preserved. -/
theorem save_load_roundtrip_witness :
    (∀ p ∈ [resA], ∃ q, convertPattern compileW DefaultLoaderConfig (patternToYAML p) 0 = .ok q) ∧
    ∃ ps, LoadYAML compileW DefaultLoaderConfig (SaveFile [resA]) 0 = .ok ps ∧
      ps.length = 1 := by
  have hA : convertPattern compileW DefaultLoaderConfig (patternToYAML resA) 0 = .ok resA := by
    rw [show patternToYAML resA = yA from rfl, convertPattern]
    norm_num [yA, effectiveConfidence, effectiveFields, DefaultLoaderConfig, compileW,
      Option.any, List.find?, resA, emptyStats]
    rfl
  have hval : ∀ p ∈ [resA], ∃ q,
      convertPattern compileW DefaultLoaderConfig (patternToYAML p) 0 = .ok q := by
    intro p hp
    rcases List.mem_singleton.mp hp with rfl
    exact ⟨resA, hA⟩
  rcases save_load_roundtrip compileW DefaultLoaderConfig [resA] 0 hval with ⟨ps, h1, h2, _⟩
  exact ⟨hval, ps, h1, h2⟩

/-- The comparator agrees with the strict lexicographic order on ranking
keys (reversed: `keyLess p q` says `p` ranks strictly before `q`). -/
lemma keyLess_iff (p q : Pattern) :
    keyLess p q = true ↔ rankLt (rankKey q) (rankKey p) := by
  unfold keyLess rankLt rankKey
  by_cases h1 : p.priority ≠ q.priority
  · rw [if_pos h1, decide_eq_true_iff]
    constructor
    · exact fun h => Or.inl h
    · rintro (h | ⟨heq, -⟩)
      · exact h
      · exact absurd heq.symm h1
  · push_neg at h1
    rw [if_neg (by simp [h1])]
    by_cases h2 : p.confidence ≠ q.confidence
    · rw [if_pos h2, decide_eq_true_iff]
      constructor
      · exact fun h => Or.inr ⟨h1.symm, Or.inl h⟩
      · rintro (h | ⟨-, h | ⟨heq, -⟩⟩)
        · rw [h1] at h
          exact absurd h (lt_irrefl _)
        · exact h
        · exact absurd heq.symm h2
    · push_neg at h2
      rw [if_neg (by simp [h2]), decide_eq_true_iff]
      constructor
      · exact fun h => Or.inr ⟨h1.symm, Or.inr ⟨h2.symm, h⟩⟩
      · rintro (h | ⟨-, h | ⟨-, h⟩⟩)
        · rw [h1] at h
          exact absurd h (lt_irrefl _)
        · rw [h2] at h
          exact absurd h (lt_irrefl _)
        · exact h

/-- Transitivity of the strict ranking order. -/
lemma rankLt_trans {a b c : Int × ℚ × ℚ} (h1 : rankLt a b) (h2 : rankLt b c) :
    rankLt a c := by
  unfold rankLt at *
  rcases h1 with h1 | ⟨e1, hh1⟩
  · rcases h2 with h2 | ⟨e2, hh2⟩
    · exact Or.inl (h1.trans h2)
    · exact Or.inl (lt_of_lt_of_eq h1 e2)
  · rcases h2 with h2 | ⟨e2, hh2⟩
    · exact Or.inl (lt_of_eq_of_lt e1 h2)
    · refine Or.inr ⟨e1.trans e2, ?_⟩
      rcases hh1 with h1 | ⟨f1, g1⟩
      · rcases hh2 with h2 | ⟨f2, g2⟩
        · exact Or.inl (h1.trans h2)
        · exact Or.inl (lt_of_lt_of_eq h1 f2)
      · rcases hh2 with h2 | ⟨f2, g2⟩
        · exact Or.inl (lt_of_eq_of_lt f1 h2)
        · exact Or.inr ⟨f1.trans f2, g1.trans g2⟩

/-- Asymmetry of the strict ranking order. -/
lemma rankLt_asymm {a b : Int × ℚ × ℚ} (h : rankLt a b) : ¬ rankLt b a := by
  intro h2
  rcases rankLt_trans h h2 with h3 | ⟨-, h3 | ⟨-, h3⟩⟩ <;> exact absurd h3 (lt_irrefl _)

/-- Negative form of `keyLess_iff`. -/
lemma keyLess_false_iff (p q : Pattern) :
    keyLess p q = false ↔ ¬ rankLt (rankKey q) (rankKey p) := by
  rw [← keyLess_iff]
  cases h : keyLess p q <;> simp [h]

/-- Inserting preserves membership up to adding the new element. -/
lemma insertByKey_perm (x : Pattern) (l : List Pattern) :
    (insertByKey x l).Perm (x :: l) := by
  induction l with
  | nil => exact List.Perm.refl _
  | cons y ys ih =>
    rw [insertByKey]
    by_cases hxy : keyLess x y = true
    · rw [if_pos hxy]
    · rw [if_neg hxy]
      exact (ih.cons y).trans (List.Perm.swap x y ys)

/-- Inserting into a key-ordered list keeps it key-ordered. -/
lemma insertByKey_ordered (x : Pattern) (l : List Pattern) (h : KeyOrdered l) :
    KeyOrdered (insertByKey x l) := by
  induction l with
  | nil => simp [insertByKey, KeyOrdered]
  | cons y ys ih =>
    rw [insertByKey]
    have h' := List.pairwise_cons.mp h
    by_cases hxy : keyLess x y = true
    · rw [if_pos hxy]
      refine List.Pairwise.cons ?_ h
      intro z hz
      rcases List.mem_cons.mp hz with rfl | hzys
      · rw [keyLess_false_iff]
        exact rankLt_asymm ((keyLess_iff x z).mp hxy)
      · have hzy : keyLess z y = false := h'.1 z hzys
        rw [keyLess_false_iff] at hzy ⊢
        intro hxz
        exact hzy (rankLt_trans ((keyLess_iff x y).mp hxy) hxz)
    · rw [if_neg hxy]
      refine List.Pairwise.cons ?_ (ih h'.2)
      intro z hz
      rcases List.mem_cons.mp ((insertByKey_perm x ys).mem_iff.mp hz) with rfl | hzys
      · exact Bool.eq_false_iff.mpr hxy
      · exact h'.1 z hzys

/-- The executable sorting model permutes its input. -/
lemma sortPatterns_perm (l : List Pattern) : l.Perm (sortPatterns l) := by
  induction l with
  | nil => exact List.Perm.refl _
  | cons x xs ih =>
    exact (ih.cons x).trans (insertByKey_perm x (sortPatterns xs)).symm

/-- The executable sorting model produces a key-ordered list. -/
lemma sortPatterns_ordered (l : List Pattern) : KeyOrdered (sortPatterns l) := by
  induction l with
  | nil => exact List.Pairwise.nil
  | cons x xs ih => exact insertByKey_ordered x (sortPatterns xs) ih

/-- The executable sorting model satisfies the `sort.Slice` contract. -/
lemma sortPatterns_isSortSliceResult (l : List Pattern) :
    IsSortSliceResult l (sortPatterns l) :=
  ⟨sortPatterns_perm l, sortPatterns_ordered l⟩

/-- A permutation of a two-element list is one of its two arrangements. -/
lemma perm_two {α : Type} {a b : α} {out : List α} (h : List.Perm [a, b] out) :
    out = [a, b] ∨ out = [b, a] := by
  have hlen := h.length_eq
  match out, hlen with
  | [x, y], _ =>
    have hx : x ∈ [a, b] := h.mem_iff.mpr (List.mem_cons_self _ _)
    have hy : y ∈ [a, b] := h.mem_iff.mpr (List.mem_cons_of_mem _ (List.mem_singleton.mpr rfl))
    have ha : a ∈ [x, y] := h.mem_iff.mp (List.mem_cons_self _ _)
    have hb : b ∈ [x, y] := h.mem_iff.mp (List.mem_cons_of_mem _ (List.mem_singleton.mpr rfl))
    rcases List.mem_cons.mp hx with rfl | hx2
    · rcases List.mem_cons.mp hy with rfl | hy2
      · rcases List.mem_cons.mp hb with rfl | hb2
        · exact Or.inl rfl
        · rcases List.mem_singleton.mp hb2 with rfl
          exact Or.inl rfl
      · rcases List.mem_singleton.mp hy2 with rfl
        exact Or.inl rfl
    · rcases List.mem_singleton.mp hx2 with rfl
      rcases List.mem_cons.mp hy with rfl | hy2
      · exact Or.inr rfl
      · rcases List.mem_singleton.mp hy2 with rfl
        rcases List.mem_cons.mp ha with rfl | ha2
        · exact Or.inr rfl
        · rcases List.mem_singleton.mp ha2 with rfl
          exact Or.inr rfl

/-- C5 counterexample. The two concrete patterns are fully tied on the
composite ranking key (priority 10, confidence 1, accuracy 0) yet distinct;
both orders of the pair are key-ordered permutations of the input, i.e.
both satisfy everything `sort.Slice` (documented as not stable) guarantees
about the code's sorting step — so the code does not guarantee that
patterns tied on the full key keep their original relative order. -/
theorem sortSlice_ties_unstable :
    IsSortSliceResult [cTie1, cTie2] [cTie2, cTie1] ∧
    IsSortSliceResult [cTie1, cTie2] [cTie1, cTie2] ∧
    cTie1.id ≠ cTie2.id := by
  have hff : keyLess cTie1 cTie2 = false := by
    rw [keyLess]
    norm_num [cTie1, cTie2]
  have hff2 : keyLess cTie2 cTie1 = false := by
    rw [keyLess]
    norm_num [cTie1, cTie2]
  refine ⟨⟨List.Perm.swap cTie2 cTie1 [], ?_⟩, ⟨List.Perm.refl _, ?_⟩, by decide⟩
  · simp [KeyOrdered, hff]
  · simp [KeyOrdered, hff2]

/-- C5 (amended): after construction, after `AddPattern`, and after a
successful `UpdateStatistics`, the matcher's pattern list is a key-ordered
permutation (priority desc, then confidence desc, then accuracy desc) of
the patterns it holds — the full `sort.Slice` contract; ties on the full
key may come out in either order. In particular any key-ordered permutation
of the two patterns `{priority 10, confidence 0.9}` and `{priority 10,
confidence 0.95}` ranks the 0.95 one first. -/
theorem matcher_ranking_sorted (patterns : List Pattern) (config : MatcherConfig)
    (pm : PatternMatcher) (pattern : Pattern) (id : String) (accepted : Bool)
    (now : Nat) :
    IsSortSliceResult patterns (NewPatternMatcherWithConfig patterns config).patterns ∧
    IsSortSliceResult (pm.patterns ++ [pattern]) (pm.AddPattern pattern).patterns ∧
    ((pm.GetPattern id).isSome = true →
      IsSortSliceResult (updateFirstById id accepted now pm.patterns)
        (pm.UpdateStatistics id accepted now).2.patterns) ∧
    (∀ out, IsSortSliceResult [cP1, cP2] out → out = [cP2, cP1]) := by
  refine ⟨sortPatterns_isSortSliceResult patterns,
    sortPatterns_isSortSliceResult (pm.patterns ++ [pattern]), ?_, ?_⟩
  · intro hsome
    rw [PatternMatcher.UpdateStatistics]
    cases hg : pm.GetPattern id with
    | none => rw [hg] at hsome; simp at hsome
    | some q => exact sortPatterns_isSortSliceResult _
  · rintro out ⟨hperm, hord⟩
    have htt : keyLess cP2 cP1 = true := by
      rw [keyLess]
      norm_num [cP1, cP2]
    rcases perm_two hperm with rfl | rfl
    · exfalso
      have := (List.pairwise_cons.mp hord).1 cP2 (List.mem_singleton.mpr rfl)
      rw [htt] at this
      exact Bool.noConfusion this
    · rfl

/-- Witness for `matcher_ranking_sorted`: the constructed matcher over
`[cP1, cP2]` satisfies the sort contract, and hence ranks `cP2` (confidence
0.95) before `cP1` (confidence 0.9). -/
theorem matcher_ranking_sorted_witness :
    IsSortSliceResult [cP1, cP2] (NewPatternMatcher [cP1, cP2]).patterns ∧
    (NewPatternMatcher [cP1, cP2]).patterns = [cP2, cP1] ∧
    ((NewPatternMatcher [cP1]).GetPattern "P1").isSome = true ∧
    IsSortSliceResult (updateFirstById "P1" true 0 (NewPatternMatcher [cP1]).patterns)
      ((NewPatternMatcher [cP1]).UpdateStatistics "P1" true 0).2.patterns := by
  have h := matcher_ranking_sorted [cP1, cP2] DefaultMatcherConfig
    (NewPatternMatcher [cP1]) cP1 "P1" true 0
  exact ⟨h.1, h.2.2.2 _ h.1, rfl, h.2.2.1 rfl⟩

/-- Patterns that do not match are skipped by the scanning loop. -/
lemma matchCollect_append_skip (pm : PatternMatcher) (tx : Transaction)
    (pre : List Pattern) (hpre : ∀ q ∈ pre, q.Matches tx = false)
    (l : List Pattern) :
    pm.matchCollect tx (pre ++ l) = pm.matchCollect tx l := by
  induction pre with
  | nil => rfl
  | cons q rest ih =>
    rw [List.cons_append, PatternMatcher.matchCollect,
      hpre q (List.mem_cons_self _ _), if_neg Bool.false_ne_true]
    exact ih (fun r hr => hpre r (List.mem_cons_of_mem _ hr))

/-- C6: when every pattern ranked before `p` fails to match and `p` matches
with static confidence at or above the early-exit threshold, the scan
returns `[p]` whatever comes after `p` (later patterns are never
consulted), `Match` returns the suggestion built from `p` alone, and that
suggestion carries no alternatives. -/
theorem match_early_exit (pm : PatternMatcher) (tx : Transaction) (now : Nat)
    (pre post : List Pattern) (p : Pattern)
    (hsplit : pm.patterns = pre ++ p :: post)
    (hpre : ∀ q ∈ pre, q.Matches tx = false)
    (hp : p.Matches tx = true)
    (hconf : p.confidence ≥ pm.earlyExitThreshold) :
    (∀ post2, pm.matchCollect tx (pre ++ p :: post2) = [p]) ∧
    pm.Match (some tx) now = .ok (some (pm.createSuggestion tx p [p] now)) ∧
    (pm.createSuggestion tx p [p] now).alternatives = [] := by
  have hcol : ∀ post2, pm.matchCollect tx (pre ++ p :: post2) = [p] := by
    intro post2
    rw [matchCollect_append_skip pm tx pre hpre, PatternMatcher.matchCollect, hp,
      if_pos rfl, if_pos hconf]
  have halt : pm.collectAlternatives p [p] [] = [] := by
    rw [PatternMatcher.collectAlternatives, if_neg (fun hc => hc.1 rfl)]
    rfl
  refine ⟨hcol, ?_, ?_⟩
  · have h2 : pm.matchCollect tx pm.patterns = [p] := by
      rw [hsplit]
      exact hcol post
    simp only [PatternMatcher.Match, h2]
  · show pm.collectAlternatives p [p] [] = []
    exact halt

/-- Witness for `match_early_exit`: on the concrete matcher `pmC6` (early
exit threshold 1), `pHigh` (confidence 1) is ranked first and matches
`txW`, so the match stops at it and yields no alternatives. -/
theorem match_early_exit_witness :
    pHigh.Matches txW = true ∧
    pHigh.confidence ≥ pmC6.earlyExitThreshold ∧
    pmC6.Match (some txW) 0 = .ok (some (pmC6.createSuggestion txW pHigh [pHigh] 0)) ∧
    (pmC6.createSuggestion txW pHigh [pHigh] 0).alternatives = [] := by
  have h := match_early_exit pmC6 txW 0 [] [pLow] pHigh rfl
    (fun q hq => absurd hq (List.not_mem_nil q)) (by decide) (le_refl _)
  exact ⟨by decide, le_refl _, h.2.1, h.2.2⟩

/-- A linear scan finds the first element satisfying the predicate. -/
lemma find_first {pred : Pattern → Bool} (p : Pattern) (post : List Pattern)
    (hp : pred p = true) :
    ∀ pre, (∀ q ∈ pre, pred q = false) →
      List.find? pred (pre ++ p :: post) = some p := by
  intro pre
  induction pre with
  | nil =>
    intro _
    exact List.find?_cons_of_pos _ hp
  | cons q rest ih =>
    intro hpre
    rw [List.cons_append,
      List.find?_cons_of_neg _ (by simp [hpre q (List.mem_cons_self _ _)])]
    exact ih (fun r hr => hpre r (List.mem_cons_of_mem _ hr))

/-- The in-place update through the first ID match replaces exactly that
pattern. -/
lemma updateFirst_split (id : String) (accepted : Bool) (now : Nat)
    (p : Pattern) (post : List Pattern) (hp : (p.id == id) = true) :
    ∀ pre, (∀ q ∈ pre, (q.id == id) = false) →
      updateFirstById id accepted now (pre ++ p :: post) =
        pre ++ p.UpdateStatistics accepted now :: post := by
  intro pre
  induction pre with
  | nil =>
    intro _
    rw [List.nil_append, updateFirstById, if_pos hp]
    rfl
  | cons q rest ih =>
    intro hpre
    rw [List.cons_append, updateFirstById,
      if_neg (by simp [hpre q (List.mem_cons_self _ _)]), List.cons_append,
      ih (fun r hr => hpre r (List.mem_cons_of_mem _ hr))]

/-- C7: on a known pattern ID (first occurrence at position `pre.length`,
with non-negative counts as every reachable state has), `UpdateStatistics`
returns no error and re-sorts the list in which exactly that pattern has
been replaced by its update: MatchCount up by one, AcceptCount or
RejectCount up by one per the flag, LastMatched stamped, Accuracy equal to
AcceptCount/(AcceptCount+RejectCount) over the new counts, and every
non-statistics field untouched. On an unknown ID it returns a not-found
error and the matcher — pattern statistics and ordering included — is
unchanged. -/
theorem updateStatistics_spec (pm : PatternMatcher) (id : String) (accepted : Bool)
    (now : Nat) :
    (∀ pre p post, pm.patterns = pre ++ p :: post →
      (∀ q ∈ pre, (q.id == id) = false) → (p.id == id) = true →
      0 ≤ p.statistics.acceptCount → 0 ≤ p.statistics.rejectCount →
      (pm.UpdateStatistics id accepted now).1 = .ok () ∧
      (pm.UpdateStatistics id accepted now).2.patterns =
        sortPatterns (pre ++ p.UpdateStatistics accepted now :: post) ∧
      IsSortSliceResult (pre ++ p.UpdateStatistics accepted now :: post)
        (pm.UpdateStatistics id accepted now).2.patterns ∧
      (p.UpdateStatistics accepted now).statistics.matchCount =
        p.statistics.matchCount + 1 ∧
      (p.UpdateStatistics accepted now).statistics.acceptCount =
        p.statistics.acceptCount + (if accepted then 1 else 0) ∧
      (p.UpdateStatistics accepted now).statistics.rejectCount =
        p.statistics.rejectCount + (if accepted then 0 else 1) ∧
      (p.UpdateStatistics accepted now).statistics.lastMatched = now ∧
      (p.UpdateStatistics accepted now).statistics.accuracy =
        ((p.UpdateStatistics accepted now).statistics.acceptCount : ℚ) /
          (((p.UpdateStatistics accepted now).statistics.acceptCount +
            (p.UpdateStatistics accepted now).statistics.rejectCount : Int) : ℚ) ∧
      (p.UpdateStatistics accepted now).id = p.id ∧
      (p.UpdateStatistics accepted now).confidence = p.confidence ∧
      (p.UpdateStatistics accepted now).priority = p.priority ∧
      (p.UpdateStatistics accepted now).regex = p.regex ∧
      (p.UpdateStatistics accepted now).category = p.category) ∧
    ((∀ q ∈ pm.patterns, (q.id == id) = false) →
      pm.UpdateStatistics id accepted now = (.error ("pattern not found: " ++ id), pm)) := by
  constructor
  · intro pre p post hsplit hpre hp hA hR
    have hfind : pm.GetPattern id = some p := by
      rw [PatternMatcher.GetPattern, hsplit]
      exact find_first p post hp pre hpre
    have hupd : pm.UpdateStatistics id accepted now =
        (.ok (), { pm with
          patterns := sortPatterns (updateFirstById id accepted now pm.patterns) }) := by
      rw [PatternMatcher.UpdateStatistics, hfind]
    have hlist : updateFirstById id accepted now pm.patterns =
        pre ++ p.UpdateStatistics accepted now :: post := by
      rw [hsplit]
      exact updateFirst_split id accepted now p post hp pre hpre
    refine ⟨by rw [hupd], by rw [hupd, hlist], ?_, ?_, ?_, ?_, ?_, ?_, rfl, rfl, rfl, rfl, rfl⟩
    · rw [hupd, hlist]
      exact sortPatterns_isSortSliceResult _
    · rfl
    · cases accepted <;> simp [Pattern.UpdateStatistics]
    · cases accepted <;> simp [Pattern.UpdateStatistics]
    · rfl
    · cases accepted with
      | false =>
        have hpos : (0 : Int) < p.statistics.acceptCount + (p.statistics.rejectCount + 1) := by
          omega
        simp [Pattern.UpdateStatistics, hpos]
      | true =>
        have hpos : (0 : Int) < p.statistics.acceptCount + 1 + p.statistics.rejectCount := by
          omega
        simp [Pattern.UpdateStatistics, hpos]
  · intro hnone
    have hfind : pm.GetPattern id = none := by
      rw [PatternMatcher.GetPattern, List.find?_eq_none]
      intro q hq
      simp [hnone q hq]
    rw [PatternMatcher.UpdateStatistics, hfind]

/-- Witness for `updateStatistics_spec`: on a one-pattern matcher, feedback
on the known ID `P1` succeeds and bumps AcceptCount, while feedback on the
unknown ID `zz` yields the not-found error and leaves the matcher
unchanged. -/
theorem updateStatistics_spec_witness :
    ((NewPatternMatcher [cP1]).UpdateStatistics "P1" true 0).1 = .ok () ∧
    (cP1.UpdateStatistics true 0).statistics.acceptCount =
      cP1.statistics.acceptCount + 1 ∧
    (NewPatternMatcher [cP1]).UpdateStatistics "zz" true 0 =
      (.error ("pattern not found: " ++ "zz"), NewPatternMatcher [cP1]) := by
  have h := updateStatistics_spec (NewPatternMatcher [cP1]) "P1" true 0
  have hk := h.1 [] cP1 [] rfl (fun q hq => absurd hq (List.not_mem_nil q)) (by decide)
    (by decide) (by decide)
  have h2 := updateStatistics_spec (NewPatternMatcher [cP1]) "zz" true 0
  refine ⟨hk.1, ?_, h2.2 ?_⟩
  · simpa using hk.2.2.2.2.1
  · intro q hq
    have hq2 : q ∈ [cP1] := hq
    rcases List.mem_singleton.mp hq2 with rfl
    decide

/-- A failed map lookup means no entry carries the key. -/
lemma lookup_none_iff (k : Int) :
    ∀ l : List (Int × Transaction), List.lookup k l = none ↔ ∀ e ∈ l, e.1 ≠ k := by
  intro l
  induction l with
  | nil => simp [List.lookup]
  | cons e rest ih =>
    rw [List.lookup]
    by_cases hk : k = e.1
    · simp [hk, beq_iff_eq]
    · have hbeq : (k == e.1) = false := by simpa using hk
      rw [hbeq]
      simp only [List.mem_cons]
      constructor
      · intro h r hr
        rcases hr with rfl | hr
        · exact fun hre => hk hre.symm
        · exact (ih.mp h) r hr
      · intro h
        exact ih.mpr (fun r hr => h r (Or.inr hr))

/-- A successful map lookup returns an entry of the list. -/
lemma lookup_some_mem (k : Int) (v : Transaction) :
    ∀ l : List (Int × Transaction), List.lookup k l = some v → (k, v) ∈ l := by
  intro l
  induction l with
  | nil => simp [List.lookup]
  | cons e rest ih =>
    rw [List.lookup]
    by_cases hk : k = e.1
    · rw [(by simpa using hk : (k == e.1) = true)]
      intro h
      injection h with h
      subst h
      subst hk
      exact List.mem_cons_self _ _
    · rw [(by simpa using hk : (k == e.1) = false)]
      exact fun h => List.mem_cons_of_mem _ (ih h)

/-- Assigning a fresh key appends the new entry. -/
lemma mapInsert_fresh (entries : List (Int × Transaction)) (k : Int) (v : Transaction)
    (h : ∀ e ∈ entries, e.1 ≠ k) :
    mapInsert entries k v = entries ++ [(k, v)] := by
  rw [mapInsert, if_neg]
  simp only [List.any_eq_true, not_exists, not_and]
  intro e he
  simp [h e he]

/-- The eviction scan's running minimum never exceeds its initial value. -/
lemma minKeyFrom_le_start :
    ∀ (entries : List (Int × Transaction)) (start : Int),
      minKeyFrom start entries ≤ start := by
  intro entries
  induction entries with
  | nil => exact fun start => le_refl start
  | cons e rest ih =>
    intro start
    have h2 : (if e.1 < start then e.1 else start) ≤ start := by
      split <;> omega
    exact le_trans (ih _) h2

/-- The eviction scan's result is at most every key in the map. -/
lemma minKeyFrom_le_mem :
    ∀ (entries : List (Int × Transaction)) (start : Int) (e : Int × Transaction),
      e ∈ entries → minKeyFrom start entries ≤ e.1 := by
  intro entries
  induction entries with
  | nil => intro start e he; exact absurd he (List.not_mem_nil e)
  | cons q rest ih =>
    intro start e he
    rcases List.mem_cons.mp he with rfl | he2
    · have h2 : (if e.1 < start then e.1 else start) ≤ e.1 := by
        split <;> omega
      exact le_trans (minKeyFrom_le_start rest _) h2
    · exact ih _ e he2

/-- The eviction scan's result is the initial value or one of the keys. -/
lemma minKeyFrom_eq_or_mem :
    ∀ (entries : List (Int × Transaction)) (start : Int),
      minKeyFrom start entries = start ∨
        ∃ e ∈ entries, minKeyFrom start entries = e.1 := by
  intro entries
  induction entries with
  | nil => exact fun start => Or.inl rfl
  | cons q rest ih =>
    intro start
    have hstep : minKeyFrom start (q :: rest) =
        minKeyFrom (if q.1 < start then q.1 else start) rest := rfl
    by_cases hq : q.1 < start
    · rw [hstep, if_pos hq]
      rcases ih q.1 with heq | ⟨e, he, heq⟩
      · exact Or.inr ⟨q, List.mem_cons_self _ _, heq⟩
      · exact Or.inr ⟨e, List.mem_cons_of_mem _ he, heq⟩
    · rw [hstep, if_neg hq]
      rcases ih start with heq | ⟨e, he, heq⟩
      · exact Or.inl heq
      · exact Or.inr ⟨e, List.mem_cons_of_mem _ he, heq⟩

/-- Deleting a present key from a duplicate-free map removes exactly one
entry. -/
lemma mapErase_length (m : Int) :
    ∀ entries : List (Int × Transaction),
      (entries.map Prod.fst).Nodup → (∃ e ∈ entries, e.1 = m) →
      (mapErase entries m).length + 1 = entries.length := by
  intro entries
  induction entries with
  | nil =>
    rintro - ⟨e, he, -⟩
    exact absurd he (List.not_mem_nil e)
  | cons q rest ih =>
    intro hnd hex
    rw [List.map_cons, List.nodup_cons] at hnd
    by_cases hq : q.1 = m
    · have hrest : List.filter (fun e => !(e.1 == m)) rest = rest := by
        apply List.filter_eq_self.mpr
        intro e he
        have hne : e.1 ≠ m := fun hem =>
          hnd.1 (List.mem_map.mpr ⟨e, he, by rw [hem, hq]⟩)
        simp [hne]
      rw [mapErase, List.filter_cons_of_neg (by simp [hq]), hrest]
      simp
    · have hex2 : ∃ e ∈ rest, e.1 = m := by
        rcases hex with ⟨e, he, hm⟩
        rcases List.mem_cons.mp he with rfl | he2
        · exact absurd hm hq
        · exact ⟨e, he2, hm⟩
      rw [mapErase, List.filter_cons_of_pos (by simp [hq])]
      have h3 := ih hnd.2 hex2
      rw [mapErase] at h3
      simp only [List.length_cons]
      omega

/-- Out-of-range ordinals: not-found error, state untouched. -/
lemma getTransaction_out_of_range (parse : String → Int → Int → Option Transaction)
    (f : BeanFile) (i : Int)
    (h : i < 0 ∨ i ≥ (f.index.transactions.length : Int)) :
    GetTransaction parse f i = (.error ("index out of range: " ++ toString i), f) := by
  rw [GetTransaction, if_pos h]

/-- Cache hit: the cached value is returned, state untouched. -/
lemma getTransaction_hit (parse : String → Int → Int → Option Transaction)
    (f : BeanFile) (i : Int) (tx : Transaction)
    (h : ¬(i < 0 ∨ i ≥ (f.index.transactions.length : Int)))
    (hl : f.cache.transactions.lookup i = some tx) :
    GetTransaction parse f i = (.ok tx, f) := by
  rw [GetTransaction, if_neg h, hl]

/-- Cache miss with a failing re-parse: error, state untouched. -/
lemma getTransaction_miss_error (parse : String → Int → Int → Option Transaction)
    (f : BeanFile) (i : Int) (txIndex : TransactionIndex) (e : String)
    (h : ¬(i < 0 ∨ i ≥ (f.index.transactions.length : Int)))
    (hl : f.cache.transactions.lookup i = none)
    (hg : f.index.transactions.get? i.toNat = some txIndex)
    (hp : parseTransactionAt parse txIndex.filePath txIndex.filePosition
      txIndex.lineNumber = .error e) :
    GetTransaction parse f i =
      (.error ("failed to parse transaction at index " ++ toString i ++ ": " ++ e), f) := by
  rw [GetTransaction, if_neg h]
  simp only [hl, hg, hp]

/-- Cache miss with a successful re-parse: the parsed transaction is
returned and cached, evicting the smallest ordinal when over capacity. -/
lemma getTransaction_miss_ok (parse : String → Int → Int → Option Transaction)
    (f : BeanFile) (i : Int) (txIndex : TransactionIndex) (tx : Transaction)
    (h : ¬(i < 0 ∨ i ≥ (f.index.transactions.length : Int)))
    (hl : f.cache.transactions.lookup i = none)
    (hg : f.index.transactions.get? i.toNat = some txIndex)
    (hp : parseTransactionAt parse txIndex.filePath txIndex.filePosition
      txIndex.lineNumber = .ok tx) :
    GetTransaction parse f i =
      (.ok tx, { f with cache := { f.cache with transactions :=
        (if (mapInsert f.cache.transactions i tx).length > f.cache.maxSize then
          mapErase (mapInsert f.cache.transactions i tx)
            (minKeyFrom i (mapInsert f.cache.transactions i tx))
        else
          mapInsert f.cache.transactions i tx) } }) := by
  rw [GetTransaction, if_neg h]
  simp only [hl, hg, hp]

/-- Well-formedness, the index, and the capacity all survive a
`GetTransaction` call. -/
lemma getTransaction_preserves (parse : String → Int → Int → Option Transaction)
    (f : BeanFile) (i : Int) (hwf : CacheConsistent parse f) :
    CacheConsistent parse (GetTransaction parse f i).2 ∧
    (GetTransaction parse f i).2.index = f.index ∧
    (GetTransaction parse f i).2.cache.maxSize = f.cache.maxSize := by
  by_cases h : i < 0 ∨ i ≥ (f.index.transactions.length : Int)
  · rw [getTransaction_out_of_range parse f i h]
    exact ⟨hwf, rfl, rfl⟩
  cases hl : f.cache.transactions.lookup i with
  | some tx =>
    rw [getTransaction_hit parse f i tx h hl]
    exact ⟨hwf, rfl, rfl⟩
  | none =>
    have hfresh : ∀ e ∈ f.cache.transactions, e.1 ≠ i := (lookup_none_iff i _).mp hl
    cases hg : f.index.transactions.get? i.toNat with
    | none =>
      rcases hwf with ⟨hnd, hsz, hcons⟩
      push_neg at h
      have hlt : i.toNat < f.index.transactions.length := by omega
      rw [List.get?_eq_get hlt] at hg
      exact absurd hg (by simp)
    | some txIndex =>
      cases hp : parseTransactionAt parse txIndex.filePath txIndex.filePosition
          txIndex.lineNumber with
      | error e =>
        rw [getTransaction_miss_error parse f i txIndex e h hl hg hp]
        exact ⟨hwf, rfl, rfl⟩
      | ok tx =>
        rw [getTransaction_miss_ok parse f i txIndex tx h hl hg hp]
        rcases hwf with ⟨hnd, hsz, hcons⟩
        have hins : mapInsert f.cache.transactions i tx =
            f.cache.transactions ++ [(i, tx)] := mapInsert_fresh _ i tx hfresh
        have hndins : ((mapInsert f.cache.transactions i tx).map Prod.fst).Nodup := by
          rw [hins, List.map_append]
          refine List.Nodup.append hnd (List.nodup_singleton i) ?_
          intro k hk hk2
          rcases List.mem_map.mp hk with ⟨e, he, rfl⟩
          exact hfresh e he (List.mem_singleton.mp hk2)
        have hmemins : ∀ e ∈ mapInsert f.cache.transactions i tx,
            ∃ ti, f.index.transactions.get? e.1.toNat = some ti ∧
              parseTransactionAt parse ti.filePath ti.filePosition ti.lineNumber =
                .ok e.2 := by
          intro e he
          rw [hins] at he
          rcases List.mem_append.mp he with he1 | he2
          · exact hcons e he1
          · rcases List.mem_singleton.mp he2 with rfl
            exact ⟨txIndex, hg, hp⟩
        have hm : ∃ e ∈ mapInsert f.cache.transactions i tx,
            e.1 = minKeyFrom i (mapInsert f.cache.transactions i tx) := by
          rcases minKeyFrom_eq_or_mem (mapInsert f.cache.transactions i tx) i with
            heq | ⟨e, he, heq⟩
          · refine ⟨(i, tx), ?_, by rw [heq]⟩
            rw [hins]
            exact List.mem_append.mpr (Or.inr (List.mem_singleton.mpr rfl))
          · exact ⟨e, he, heq.symm⟩
        have hinslen : (mapInsert f.cache.transactions i tx).length =
            f.cache.transactions.length + 1 := by
          rw [hins, List.length_append, List.length_singleton]
        constructor
        · refine ⟨?_, ?_, ?_⟩
          · dsimp only [CacheConsistent]
            split
            · exact List.Nodup.sublist
                (List.Sublist.map Prod.fst (List.filter_sublist _)) hndins
            · exact hndins
          · dsimp only [CacheConsistent]
            split
            · have hlen := mapErase_length
                (minKeyFrom i (mapInsert f.cache.transactions i tx))
                (mapInsert f.cache.transactions i tx) hndins
                (by rcases hm with ⟨e, he, hee⟩; exact ⟨e, he, hee⟩)
              omega
            · omega
          · dsimp only [CacheConsistent]
            intro e he
            refine hmemins e ?_
            revert he
            split
            · exact fun he => (List.filter_sublist _).mem he
            · exact fun he => he
        · exact ⟨rfl, rfl⟩

/-- On an in-range ordinal of a consistent file, the returned value is a
function of the bytes (`parse`) and the index entry alone — cache hit or
re-parse makes no difference. -/
lemma getTransaction_fst_char (parse : String → Int → Int → Option Transaction)
    (f : BeanFile) (i : Int) (txIndex : TransactionIndex)
    (hwf : CacheConsistent parse f)
    (h : ¬(i < 0 ∨ i ≥ (f.index.transactions.length : Int)))
    (hg : f.index.transactions.get? i.toNat = some txIndex) :
    (GetTransaction parse f i).1 =
      (match parseTransactionAt parse txIndex.filePath txIndex.filePosition
          txIndex.lineNumber with
       | .ok tx => .ok tx
       | .error e =>
         .error ("failed to parse transaction at index " ++ toString i ++ ": " ++ e)) := by
  cases hl : f.cache.transactions.lookup i with
  | some tx =>
    rw [getTransaction_hit parse f i tx h hl]
    have hcons := hwf.2.2 (i, tx) (lookup_some_mem i tx _ hl)
    dsimp only at hcons
    rcases hcons with ⟨ti, hti, hpi⟩
    rw [hg] at hti
    injection hti with hti
    subst hti
    rw [hpi]
  | none =>
    cases hp : parseTransactionAt parse txIndex.filePath txIndex.filePosition
        txIndex.lineNumber with
    | ok tx =>
      rw [getTransaction_miss_ok parse f i txIndex tx h hl hg hp]
    | error e =>
      rw [getTransaction_miss_error parse f i txIndex e h hl hg hp]

/-- C2: for an open ledger file over unchanging bytes with a consistent
cache, an in-range ordinal gives the same transaction value on every call —
against any consistent cache state over the same index (hit, miss, or after
eviction), and in particular on an immediate repeat call; an out-of-range
ordinal returns a not-found error and leaves the file (cache included)
unchanged. -/
theorem getTransaction_idempotent (parse : String → Int → Int → Option Transaction)
    (f : BeanFile) (i : Int) (hwf : CacheConsistent parse f) :
    (¬(i < 0 ∨ i ≥ (f.index.transactions.length : Int)) →
      (∀ g, CacheConsistent parse g → g.index = f.index →
        (GetTransaction parse g i).1 = (GetTransaction parse f i).1) ∧
      (GetTransaction parse (GetTransaction parse f i).2 i).1 =
        (GetTransaction parse f i).1) ∧
    ((i < 0 ∨ i ≥ (f.index.transactions.length : Int)) →
      GetTransaction parse f i = (.error ("index out of range: " ++ toString i), f)) := by
  constructor
  · intro h
    have h2 : ¬(i < 0) ∧ i < (f.index.transactions.length : Int) := by
      push_neg at h
      exact ⟨by omega, h.2⟩
    have hlt : i.toNat < f.index.transactions.length := by omega
    have hg : f.index.transactions.get? i.toNat =
        some (f.index.transactions.get ⟨i.toNat, hlt⟩) := List.get?_eq_get hlt
    have hgen : ∀ g, CacheConsistent parse g → g.index = f.index →
        (GetTransaction parse g i).1 = (GetTransaction parse f i).1 := by
      intro g hgwf hgidx
      have hbg : ¬(i < 0 ∨ i ≥ (g.index.transactions.length : Int)) := by
        rw [hgidx]
        exact h
      have hgg : g.index.transactions.get? i.toNat =
          some (f.index.transactions.get ⟨i.toNat, hlt⟩) := by
        rw [hgidx]
        exact hg
      rw [getTransaction_fst_char parse g i _ hgwf hbg hgg,
        getTransaction_fst_char parse f i _ hwf h hg]
    refine ⟨hgen, ?_⟩
    have hpres := getTransaction_preserves parse f i hwf
    exact hgen (GetTransaction parse f i).2 hpres.1 hpres.2.1
  · exact getTransaction_out_of_range parse f i

/-- Witness for `getTransaction_idempotent`: on the concrete one-transaction
file `fW`, ordinal 0 is stable across a repeat call, and ordinal 5 is a
not-found error that leaves the file unchanged. -/
theorem getTransaction_idempotent_witness :
    CacheConsistent parseW fW ∧
    (GetTransaction parseW (GetTransaction parseW fW 0).2 0).1 =
      (GetTransaction parseW fW 0).1 ∧
    GetTransaction parseW fW 5 = (.error ("index out of range: " ++ toString (5 : Int)), fW) := by
  have hwf : CacheConsistent parseW fW :=
    ⟨by simp [fW], by norm_num [fW], fun e he => absurd he (List.not_mem_nil e)⟩
  refine ⟨hwf, ?_, ?_⟩
  · exact ((getTransaction_idempotent parseW fW 0 hwf).1 (by decide)).2
  · exact (getTransaction_idempotent parseW fW 5 hwf).2 (by decide)

/-- C9: after any `GetTransaction` call on a consistent file the cache
holds at most its fixed capacity, and the capacity itself is unchanged;
when a miss inserts into a full cache, the call still returns the parsed
transaction, and the new cache is the inserted list minus exactly one
entry — the one carrying the numerically smallest cached ordinal (which is
either the just-inserted ordinal or one already cached). -/
theorem cache_bounded_min_eviction (parse : String → Int → Int → Option Transaction)
    (f : BeanFile) (i : Int) (hwf : CacheConsistent parse f) :
    ((GetTransaction parse f i).2.cache.transactions.length ≤ f.cache.maxSize ∧
     (GetTransaction parse f i).2.cache.maxSize = f.cache.maxSize) ∧
    (∀ txIndex tx,
      ¬(i < 0 ∨ i ≥ (f.index.transactions.length : Int)) →
      f.cache.transactions.lookup i = none →
      f.index.transactions.get? i.toNat = some txIndex →
      parseTransactionAt parse txIndex.filePath txIndex.filePosition
        txIndex.lineNumber = .ok tx →
      f.cache.transactions.length = f.cache.maxSize →
      (GetTransaction parse f i).1 = .ok tx ∧
      (GetTransaction parse f i).2.cache.transactions =
        mapErase (f.cache.transactions ++ [(i, tx)])
          (minKeyFrom i (f.cache.transactions ++ [(i, tx)])) ∧
      (GetTransaction parse f i).2.cache.transactions.length + 1 =
        (f.cache.transactions ++ [(i, tx)]).length ∧
      (∀ e ∈ f.cache.transactions ++ [(i, tx)],
        minKeyFrom i (f.cache.transactions ++ [(i, tx)]) ≤ e.1) ∧
      (minKeyFrom i (f.cache.transactions ++ [(i, tx)]) = i ∨
        minKeyFrom i (f.cache.transactions ++ [(i, tx)]) ∈
          f.cache.transactions.map Prod.fst)) := by
  constructor
  · have hpres := getTransaction_preserves parse f i hwf
    refine ⟨?_, hpres.2.2⟩
    have hsz := hpres.1.2.1
    rw [hpres.2.2] at hsz
    exact hsz
  · intro txIndex tx h hl hg hp hfull
    have hfresh : ∀ e ∈ f.cache.transactions, e.1 ≠ i := (lookup_none_iff i _).mp hl
    have hins : mapInsert f.cache.transactions i tx =
        f.cache.transactions ++ [(i, tx)] := mapInsert_fresh _ i tx hfresh
    have hndins : ((f.cache.transactions ++ [(i, tx)]).map Prod.fst).Nodup := by
      rw [List.map_append]
      refine List.Nodup.append hwf.1 (List.nodup_singleton i) ?_
      intro k hk hk2
      rcases List.mem_map.mp hk with ⟨e, he, rfl⟩
      exact hfresh e he (List.mem_singleton.mp hk2)
    have hcond2 : (f.cache.transactions ++ [(i, tx)]).length > f.cache.maxSize := by
      rw [List.length_append, List.length_singleton, hfull]
      omega
    have hmkey : ∃ e ∈ f.cache.transactions ++ [(i, tx)],
        e.1 = minKeyFrom i (f.cache.transactions ++ [(i, tx)]) := by
      rcases minKeyFrom_eq_or_mem (f.cache.transactions ++ [(i, tx)]) i with
        heq | ⟨e, he, heq⟩
      · exact ⟨(i, tx), List.mem_append.mpr (Or.inr (List.mem_singleton.mpr rfl)), heq.symm⟩
      · exact ⟨e, he, heq.symm⟩
    rw [getTransaction_miss_ok parse f i txIndex tx h hl hg hp]
    dsimp only
    rw [hins, if_pos hcond2]
    refine ⟨rfl, rfl, ?_, ?_, ?_⟩
    · exact mapErase_length _ _ hndins hmkey
    · exact fun e he => minKeyFrom_le_mem _ i e he
    · rcases minKeyFrom_eq_or_mem (f.cache.transactions ++ [(i, tx)]) i with
        heq | ⟨e, he, heq⟩
      · exact Or.inl heq
      · rcases List.mem_append.mp he with he1 | he2
        · exact Or.inr (heq ▸ List.mem_map.mpr ⟨e, he1, rfl⟩)
        · rcases List.mem_singleton.mp he2 with rfl
          exact Or.inl heq

/-- Witness for `cache_bounded_min_eviction`: fetching ordinal 1 of the
concrete file `fW9`, whose capacity-1 cache is full with ordinal 0, still
returns the parsed transaction and leaves the cache within capacity. -/
theorem cache_bounded_min_eviction_witness :
    CacheConsistent parseW fW9 ∧
    fW9.cache.transactions.length = fW9.cache.maxSize ∧
    (GetTransaction parseW fW9 1).1 = .ok txW1 ∧
    (GetTransaction parseW fW9 1).2.cache.transactions.length ≤ fW9.cache.maxSize := by
  have hwf : CacheConsistent parseW fW9 := by
    refine ⟨by simp [fW9], by norm_num [fW9], ?_⟩
    intro e he
    have he2 : e ∈ [((0 : Int), txW0)] := he
    rcases List.mem_singleton.mp he2 with rfl
    exact ⟨txIdx0, rfl, rfl⟩
  have h := cache_bounded_min_eviction parseW fW9 1 hwf
  have hev := h.2 txIdx1 txW1 (by decide) (by decide) rfl rfl rfl
  exact ⟨hwf, rfl, hev.1, h.1.1⟩

end Lima
